import Mathlib

set_option maxRecDepth 1000000

/-!
# Verification of the Mentis cache core

Shallow embedding of the Mentis workflow-aware semantic cache (Go) into
Lean 4, together with proofs of the specification claims about it.

Conventions used throughout the embedding:
* Go byte slices (`[]byte`) are `List Nat` with every element < 256.
* Go strings are Lean `String`s; where Go indexes a string by byte we
  convert through an explicit UTF-8 encoder.
* `uuid.UUID` is `Nat`; `uuid.Nil` is `0`; `uuid.New()` is modelled by a
  fresh-id counter carried in the database state.
* `time.Now()` / SQL `NOW()` are modelled by a logical clock carried in
  the database state; every call returns the clock and advances it.
* Machine integers are `Nat` with explicit reduction `% 2^32` where the
  Go code relies on 32-bit wraparound (SHA-256).
-/

namespace Mentis

/-! ## SHA-256 (crypto/sha256, FIPS 180-4)

The Go code calls the standard library `crypto/sha256`.  We embed the
algorithm itself: words are `Nat` reduced mod `2^32`, messages are byte
lists. -/

/-- Reduce to a 32-bit word. -/
def w32 (n : Nat) : Nat := n % 4294967296

/-- 32-bit right rotation (operand assumed < 2^32). -/
def rotr32 (x n : Nat) : Nat := w32 (Nat.lor (x >>> n) (x <<< (32 - n)))

def shaCh (x y z : Nat) : Nat := Nat.xor (Nat.land x y) (Nat.land (Nat.xor x 4294967295) z)

def shaMaj (x y z : Nat) : Nat :=
  Nat.xor (Nat.xor (Nat.land x y) (Nat.land x z)) (Nat.land y z)

def bigSigma0 (x : Nat) : Nat := Nat.xor (Nat.xor (rotr32 x 2) (rotr32 x 13)) (rotr32 x 22)

def bigSigma1 (x : Nat) : Nat := Nat.xor (Nat.xor (rotr32 x 6) (rotr32 x 11)) (rotr32 x 25)

def smallSigma0 (x : Nat) : Nat := Nat.xor (Nat.xor (rotr32 x 7) (rotr32 x 18)) (x >>> 3)

def smallSigma1 (x : Nat) : Nat := Nat.xor (Nat.xor (rotr32 x 17) (rotr32 x 19)) (x >>> 10)

/-- The 64 SHA-256 round constants (FIPS 180-4 §4.2.2, in decimal). -/
def shaK : List Nat :=
  [1116352408, 1899447441, 3049323471, 3921009573, 961987163, 1508970993,
   2453635748, 2870763221, 3624381080, 310598401, 607225278, 1426881987,
   1925078388, 2162078206, 2614888103, 3248222580, 3835390401, 4022224774,
   264347078, 604807628, 770255983, 1249150122, 1555081692, 1996064986,
   2554220882, 2821834349, 2952996808, 3210313671, 3336571891, 3584528711,
   113926993, 338241895, 666307205, 773529912, 1294757372, 1396182291,
   1695183700, 1986661051, 2177026350, 2456956037, 2730485921, 2820302411,
   3259730800, 3345764771, 3516065817, 3600352804, 4094571909, 275423344,
   430227734, 506948616, 659060556, 883997877, 958139571, 1322822218,
   1537002063, 1747873779, 1955562222, 2024104815, 2227730452, 2361852424,
   2428436474, 2756734187, 3204031479, 3329325298]

/-- Running hash state (eight 32-bit words). -/
structure H8 where
  a : Nat
  b : Nat
  c : Nat
  d : Nat
  e : Nat
  f : Nat
  g : Nat
  h : Nat

/-- SHA-256 initial hash value (FIPS 180-4 §5.3.3, in decimal). -/
def shaH0 : H8 :=
  ⟨1779033703, 3144134277, 1013904242, 2773480762,
   1359893119, 2600822924, 528734635, 1541459225⟩

/-- Group a byte list into big-endian 32-bit words (length divisible by 4). -/
def bytesToWords : List Nat → Nat → Nat → List Nat
  | [], _, _ => []
  | b :: bs, acc, cnt =>
    if cnt = 3 then (acc * 256 + b) :: bytesToWords bs 0 0
    else bytesToWords bs (acc * 256 + b) (cnt + 1)

/-- Extend the 16 block words to the 64-entry message schedule. -/
def shaSchedule (ws : List Nat) : List Nat :=
  (List.range 48).foldl
    (fun w i =>
      w ++ [w32 (smallSigma1 (w.getD (i + 14) 0) + w.getD (i + 9) 0 +
                 smallSigma0 (w.getD (i + 1) 0) + w.getD i 0)])
    ws

/-- One compression round. -/
def shaRound (s : H8) (kw : Nat × Nat) : H8 :=
  let t1 := w32 (s.h + bigSigma1 s.e + shaCh s.e s.f s.g + kw.1 + kw.2)
  let t2 := w32 (bigSigma0 s.a + shaMaj s.a s.b s.c)
  ⟨w32 (t1 + t2), s.a, s.b, s.c, w32 (s.d + t1), s.e, s.f, s.g⟩

/-- Compress one 64-byte block into the running state. -/
def shaCompress (st : H8) (block : List Nat) : H8 :=
  let ws := shaSchedule (bytesToWords block 0 0)
  let r := (shaK.zip ws).foldl shaRound st
  ⟨w32 (st.a + r.a), w32 (st.b + r.b), w32 (st.c + r.c), w32 (st.d + r.d),
   w32 (st.e + r.e), w32 (st.f + r.f), w32 (st.g + r.g), w32 (st.h + r.h)⟩

/-- SHA-256 padding: `0x80`, zeros, then the 64-bit big-endian bit length. -/
def shaPad (msg : List Nat) : List Nat :=
  let len := msg.length
  let zeros := (64 - (len + 9) % 64) % 64
  msg ++ [0x80] ++ List.replicate zeros 0 ++
    (List.range 8).map (fun i => (len * 8) >>> (56 - 8 * i) % 256)

/-- Absorb one byte: buffer it, compressing whenever 64 bytes accumulate. -/
def shaAbsorb : List Nat × H8 → Nat → List Nat × H8 :=
  fun bs b =>
    let buf := bs.1 ++ [b]
    if buf.length = 64 then ([], shaCompress bs.2 buf) else (buf, bs.2)

/-- Serialize a 32-bit word as four big-endian bytes. -/
def wordBytes (w : Nat) : List Nat := [w >>> 24 % 256, w >>> 16 % 256, w >>> 8 % 256, w % 256]

/-- SHA-256 digest of a byte list: 32 bytes. -/
def sha256 (msg : List Nat) : List Nat :=
  let st := ((shaPad msg).foldl shaAbsorb ([], shaH0)).2
  wordBytes st.a ++ wordBytes st.b ++ wordBytes st.c ++ wordBytes st.d ++
    wordBytes st.e ++ wordBytes st.f ++ wordBytes st.g ++ wordBytes st.h

/-- Lowercase hex digit. -/
def hexChar (n : Nat) : Char :=
  if n < 10 then Char.ofNat (48 + n) else Char.ofNat (87 + n)

/-- Lowercase hex encoding of a byte list (`encoding/hex`). -/
def bytesToHex (bs : List Nat) : String :=
  String.mk (bs.flatMap (fun b => [hexChar (b / 16), hexChar (b % 16)]))

/-- UTF-8 encoding of one scalar value. -/
def utf8Char (c : Char) : List Nat :=
  let n := c.toNat
  if n < 0x80 then [n]
  else if n < 0x800 then [0xC0 + n / 64, 0x80 + n % 64]
  else if n < 0x10000 then [0xE0 + n / 4096, 0x80 + (n / 64) % 64, 0x80 + n % 64]
  else [0xF0 + n / 0x40000, 0x80 + (n / 4096) % 64, 0x80 + (n / 64) % 64, 0x80 + n % 64]

/-- UTF-8 encoding of a string (Go strings are their UTF-8 bytes). -/
def utf8Encode (s : String) : List Nat := s.data.flatMap utf8Char

/-! ## JSON-like dynamic values

Go's `interface{}` holding decoded JSON (`map[string]interface{}`,
`[]interface{}`, `string`, `bool`, `nil`, numbers).  Objects are
association lists in insertion order; a Go `map` never holds duplicate
keys, which appears below as `Nodup` hypotheses where it matters.
Numbers are modelled as integers (Go decodes JSON numbers to `float64`;
floating-point formatting is outside this model, and no claim depends on
non-integral numbers). -/

mutual

inductive JVal where
  | null
  | bool (b : Bool)
  | num (n : Int)
  | str (s : String)
  | arr (elems : JArr)
  | obj (fields : JObj)

inductive JArr where
  | nil
  | cons (hd : JVal) (tl : JArr)

inductive JObj where
  | nil
  | cons (key : String) (val : JVal) (tl : JObj)

end

/-- The fields of an object, as an association list. -/
def JObj.toList : JObj → List (String × JVal)
  | .nil => []
  | .cons k v tl => (k, v) :: JObj.toList tl

/-- Build an object from an association list. -/
def JObj.ofList : List (String × JVal) → JObj
  | [] => .nil
  | (k, v) :: tl => .cons k v (JObj.ofList tl)

/-- First binding for a key (Go map lookup; maps built by this model
never hold duplicate keys). -/
def JObj.lookup (o : JObj) (k : String) : Option JVal :=
  (o.toList.find? (fun p => p.1 == k)).map Prod.snd

/-- Go `m[k] = v`: replace the binding if the key is present, otherwise
add it. -/
def JObj.set (o : JObj) (k : String) (v : JVal) : JObj :=
  if (o.toList.find? (fun p => p.1 == k)).isSome then
    JObj.ofList (o.toList.map (fun p => if p.1 == k then (k, v) else p))
  else JObj.ofList (o.toList ++ [(k, v)])

/-- Build a list from a `JArr`. -/
def JArr.toList : JArr → List JVal
  | .nil => []
  | .cons x tl => x :: JArr.toList tl

/-- Build a `JArr` from a list. -/
def JArr.ofList : List JVal → JArr
  | [] => .nil
  | x :: tl => .cons x (JArr.ofList tl)

/-- `encoding/json` escaping of one character inside a string literal
(Go escapes `"` `\` control characters, and HTML-escapes `<` `>` `&`,
U+2028, U+2029 by default). -/
def quoteJsonChar (c : Char) : List Char :=
  if c = '"' then ['\\', '"']
  else if c = '\\' then ['\\', '\\']
  else if c = '\n' then ['\\', 'n']
  else if c = '\r' then ['\\', 'r']
  else if c = '\t' then ['\\', 't']
  else if c.toNat < 32 || c = '<' || c = '>' || c = '&' then
    ['\\', 'u', '0', '0', hexChar (c.toNat / 16), hexChar (c.toNat % 16)]
  else if c.toNat = 0x2028 || c.toNat = 0x2029 then
    ['\\', 'u', '2', '0', '2', hexChar (c.toNat % 16)]
  else [c]

/-- `encoding/json` string literal. -/
def quoteJson (s : String) : String :=
  "\"" ++ String.mk (s.data.flatMap quoteJsonChar) ++ "\""

/-- Lexicographic order on character lists (by code point). -/
def chLe : List Char → List Char → Bool
  | [], _ => true
  | _ :: _, [] => false
  | a :: as, b :: bs =>
    if a.toNat < b.toNat then true
    else if b.toNat < a.toNat then false
    else chLe as bs

/-- Go's string order (byte-wise `<=`; on valid UTF-8 this agrees with
code-point lexicographic order). -/
def strLe (a b : String) : Bool := chLe a.data b.data

/-- Sort rendered key/value pairs by key (Go's `encoding/json` sorts map
keys). -/
def sortRendered (l : List (String × String)) : List (String × String) :=
  List.insertionSort (fun a b => strLe a.1 b.1 = true) l

mutual

/-- `encoding/json.Marshal` of a decoded-JSON value, as a string. -/
def jsonMarshal : JVal → String
  | .null => "null"
  | .bool b => if b then "true" else "false"
  | .num n => toString n
  | .str s => quoteJson s
  | .arr xs => "[" ++ String.intercalate "," (marshalElems xs) ++ "]"
  | .obj fs =>
    "\x7b" ++ String.intercalate ","
      ((sortRendered (marshalFields fs)).map (fun p => quoteJson p.1 ++ ":" ++ p.2)) ++ "\x7d"

def marshalElems : JArr → List String
  | .nil => []
  | .cons x xs => jsonMarshal x :: marshalElems xs

def marshalFields : JObj → List (String × String)
  | .nil => []
  | .cons k v fs => (k, jsonMarshal v) :: marshalFields fs

end

/-- Sort object fields by key. -/
def sortFields (l : List (String × JVal)) : List (String × JVal) :=
  List.insertionSort (fun a b => strLe a.1 b.1 = true) l

mutual

/-- Canonical form of a JSON-like value: object fields recursively
sorted by key.  Two values are structurally equal — same key/value pairs
regardless of key insertion order — precisely when their canonical forms
coincide (see the permutation characterization in claim C4's theorem). -/
def canon : JVal → JVal
  | .null => .null
  | .bool b => .bool b
  | .num n => .num n
  | .str s => .str s
  | .arr xs => .arr (JArr.ofList (canonElems xs))
  | .obj fs => .obj (JObj.ofList (sortFields (canonFields fs)))

def canonElems : JArr → List JVal
  | .nil => []
  | .cons x xs => canon x :: canonElems xs

def canonFields : JObj → List (String × JVal)
  | .nil => []
  | .cons k v fs => (k, canon v) :: canonFields fs

end

mutual

/-- `fmt.Sprintf("%v", ·)` of a decoded-JSON value (Go prints maps with
sorted keys, slices space-separated in brackets, `nil` as `<nil>`). -/
def gofmtV : JVal → String
  | .null => "<nil>"
  | .bool b => if b then "true" else "false"
  | .num n => toString n
  | .str s => s
  | .arr xs => "[" ++ String.intercalate " " (gofmtElems xs) ++ "]"
  | .obj fs =>
    "map[" ++ String.intercalate " "
      ((sortRendered (gofmtFields fs)).map (fun p => p.1 ++ ":" ++ p.2)) ++ "]"

def gofmtElems : JArr → List String
  | .nil => []
  | .cons x xs => gofmtV x :: gofmtElems xs

def gofmtFields : JObj → List (String × String)
  | .nil => []
  | .cons k v fs => (k, gofmtV v) :: gofmtFields fs

end

/-! ## HashService (`internal/core/services`, hash service) -/

/-- `HashService.ComputeContentHash`: SHA-256 of the content bytes,
lowercase hex. -/
def computeContentHash (content : List Nat) : String :=
  bytesToHex (sha256 content)

/-- `HashService.ComputeInputHash`: `json.Marshal` the input, then
content-hash the bytes.  (The Go `Sprintf` fallback fires only when
`json.Marshal` errors, which cannot happen for decoded-JSON values, the
only inhabitants of this model.) -/
def computeInputHash (input : JVal) : String :=
  computeContentHash (utf8Encode (jsonMarshal input))

/-! ## Mock embedding provider (`internal/core/services/embedding/mock.go`)

Texts are their Go byte strings (`List Nat`); `strings.ToLower`,
`strings.TrimSpace` and `strings.Fields` are modelled on the ASCII
character classes (Go additionally handles non-ASCII Unicode, with the
same idempotence and whitespace-preservation properties this
development relies on).  All floating-point operations of the provider
(float64/float32 arithmetic, `math.Sin`, `math.Sqrt`, and the rounding
conversions) are abstracted into a bundle `FOps` of opaque functions on
`ℚ`; every theorem about the provider quantifies over the bundle, so it
holds in particular for the real IEEE-754 interpretation. -/

/-- ASCII whitespace recognized by `unicode.IsSpace`. -/
def isGoSpace (b : Nat) : Bool :=
  b == 32 || b == 9 || b == 10 || b == 11 || b == 12 || b == 13

/-- ASCII lowercasing of one byte. -/
def lowerByte (b : Nat) : Nat := if 65 ≤ b ∧ b ≤ 90 then b + 32 else b

/-- `strings.ToLower` (ASCII fragment). -/
def goToLower (s : List Nat) : List Nat := s.map lowerByte

/-- `strings.TrimSpace` (ASCII fragment): strip leading and trailing
whitespace. -/
def goTrimSpace (s : List Nat) : List Nat :=
  (s.dropWhile isGoSpace).rdropWhile isGoSpace

/-- The provider's text normalization:
`strings.ToLower(strings.TrimSpace(text))`. -/
def normalizeMockText (s : List Nat) : List Nat := goToLower (goTrimSpace s)

/-- `strings.Fields`: split on whitespace runs (accumulator holds the
current word reversed). -/
def goFieldsAux : List Nat → List Nat → List (List Nat)
  | [], acc => if acc.isEmpty then [] else [acc.reverse]
  | b :: bs, acc =>
    if isGoSpace b then
      (if acc.isEmpty then goFieldsAux bs [] else acc.reverse :: goFieldsAux bs [])
    else goFieldsAux bs (b :: acc)

def goFields (s : List Nat) : List (List Nat) := goFieldsAux s []

/-- Abstract interpretation of the floating-point operations used by
`MockProvider.createEmbedding` and `normalizeEmbedding`. -/
structure FOps where
  add : ℚ → ℚ → ℚ
  sub : ℚ → ℚ → ℚ
  mul : ℚ → ℚ → ℚ
  div : ℚ → ℚ → ℚ
  sin : ℚ → ℚ
  sqrt : ℚ → ℚ
  toF32 : ℚ → ℚ
  addF32 : ℚ → ℚ → ℚ
  mulF32 : ℚ → ℚ → ℚ
  divF32 : ℚ → ℚ → ℚ

/-- The exact-rational interpretation (used to instantiate witnesses). -/
def exactFOps : FOps :=
  ⟨(· + ·), (· - ·), (· * ·), (· / ·), fun _ => 0, fun _ => 0, id, (· + ·), (· * ·), (· / ·)⟩

/-- The value the mock provider computes at coordinate `i`, before L2
normalization (body of the `for` loop in `createEmbedding`). -/
def mockRawValue (ops : FOps) (hash text : List Nat) (textLen wordCount i : Nat) : ℚ :=
  let v0 := ops.div (hash.getD (i % hash.length) 0 : ℚ) 255
  let v1 := if i < textLen then ops.add v0 (ops.div (text.getD (i % textLen) 0 : ℚ) 255) else v0
  let v2 := ops.add v1 (ops.div (wordCount : ℚ) 1000)
  let v3 := ops.add v2 (ops.sin (ops.mul (i : ℚ) (1 / 10)))
  ops.toF32 (ops.div (ops.sub v3 1) 2)

/-- `MockProvider.normalizeEmbedding`: L2-normalize in place (skipped
when the computed norm is not positive). -/
def mockNormalizeEmbedding (ops : FOps) (emb : List ℚ) : List ℚ :=
  let sum := emb.foldl (fun s v => ops.addF32 s (ops.mulF32 v v)) 0
  let norm := ops.toF32 (ops.sqrt sum)
  if Rat.blt 0 norm then emb.map (fun v => ops.divF32 v norm) else emb

/-- `MockProvider.createEmbedding`. -/
def mockCreateEmbedding (ops : FOps) (text0 : List Nat) : List ℚ :=
  let text := normalizeMockText text0
  let hash := sha256 text
  let textLen := text.length
  let wordCount := (goFields text).length
  mockNormalizeEmbedding ops
    ((List.range 1536).map (mockRawValue ops hash text textLen wordCount))

/-- `MockProvider.GenerateEmbedding` (always succeeds). -/
def mockGenerateEmbedding (ops : FOps) (text : List Nat) : List ℚ :=
  mockCreateEmbedding ops text

/-- `MockProvider.GenerateEmbeddings`: one embedding per input text, in
order. -/
def mockGenerateEmbeddings (ops : FOps) (texts : List (List Nat)) : List (List ℚ) :=
  texts.map (mockCreateEmbedding ops)

/-! ## Domain model (`internal/core/domain`)

`ArtifactType`, `StepStatus` and `SessionStatus` are Go string types
(closed sets only by convention), so they are `String`s here; embedding
vectors are `List ℚ` (their numeric values never feed back into control
flow — similarity scoring is abstracted in the vector index below). -/

abbrev UUID := Nat

abbrev Vec := List ℚ

structure Artifact where
  id : UUID
  type : String
  contentHash : String
  content : List Nat
  embedding : Vec
  dependencies : List UUID
  metadata : JObj
  createdAt : Nat
  updatedAt : Nat
  stale : Bool

structure WorkflowStep where
  id : UUID
  sessionID : UUID
  stepType : String
  artifactID : UUID
  inputHash : String
  outputHash : String
  metadata : JObj
  createdAt : Nat
  completedAt : Option Nat
  status : String

structure WorkflowSession where
  id : UUID
  goal : String
  context : JObj
  createdAt : Nat
  updatedAt : Nat
  status : String

/-- One point of the vector index. -/
structure VPoint where
  id : UUID
  vector : Vec
  payload : JObj

/-- The complete persistent state: the `artifacts`,
`artifact_dependencies`, `workflow_sessions` and `workflow_steps`
relations, the vector collection, the fresh-uuid counter and the logical
clock. -/
structure DB where
  artifacts : List Artifact
  deps : List (UUID × UUID)
  sessions : List WorkflowSession
  steps : List WorkflowStep
  points : List VPoint
  nextId : UUID
  clock : Nat

/-! ## ArtifactRepository (`internal/storage/postgres`) -/

/-- `ArtifactRepository.Store`: `INSERT … ON CONFLICT (id) DO UPDATE`
(the update clause does not touch `created_at`). -/
def artifactStore (db : DB) (a : Artifact) : DB :=
  if (db.artifacts.find? (fun r => r.id == a.id)).isSome then
    { db with artifacts := db.artifacts.map (fun r =>
        if r.id == a.id then
          { r with type := a.type, contentHash := a.contentHash, content := a.content,
                   metadata := a.metadata, updatedAt := a.updatedAt, stale := a.stale }
        else r) }
  else { db with artifacts := db.artifacts ++ [a] }

/-- `ArtifactRepository.GetByID` (`sql.ErrNoRows` becomes `none` with no
error). -/
def artifactGetByID (db : DB) (id : UUID) : Option Artifact :=
  db.artifacts.find? (fun r => r.id == id)

/-- `ArtifactRepository.GetByContentHash`. -/
def artifactGetByContentHash (db : DB) (h : String) : Option Artifact :=
  db.artifacts.find? (fun r => r.contentHash == h)

/-- `ArtifactRepository.Delete` (the schema cascades dependency edges). -/
def artifactDelete (db : DB) (id : UUID) : DB :=
  { db with artifacts := db.artifacts.filter (fun r => !(r.id == id)),
            deps := db.deps.filter (fun e => !(e.1 == id) && !(e.2 == id)) }

/-- `ArtifactRepository.StoreDependency`: idempotent edge insert
(`ON CONFLICT DO NOTHING`). -/
def storeDependency (db : DB) (parent child : UUID) : DB :=
  if db.deps.contains (parent, child) then db
  else { db with deps := db.deps ++ [(parent, child)] }

/-- Postgres `metadata->>'source_url'`: the text of the JSON value bound
to the key (`NULL` for an absent key or JSON null). -/
def jsonFieldText : Option JVal → Option String
  | none => none
  | some .null => none
  | some (.bool b) => some (if b then "true" else "false")
  | some (.num n) => some (toString n)
  | some (.str s) => some s
  | some v => some (jsonMarshal v)

/-- `ArtifactRepository.MarkStaleBySourceURL`:
`UPDATE artifacts SET stale = true, updated_at = NOW()
 WHERE metadata->>'source_url' = $1`. -/
def markStaleBySourceURL (db : DB) (url : String) : DB :=
  { db with
    artifacts := db.artifacts.map (fun r =>
      if jsonFieldText (r.metadata.lookup "source_url") == some url then
        { r with stale := true, updatedAt := db.clock }
      else r),
    clock := db.clock + 1 }

/-! ## WorkflowRepository (`internal/storage/postgres`) -/

/-- `WorkflowRepository.StoreStep`: upsert by id; the conflict clause
updates only `artifact_id`, `output_hash`, `metadata`, `completed_at`,
`status`. -/
def storeStep (db : DB) (s : WorkflowStep) : DB :=
  if (db.steps.find? (fun r => r.id == s.id)).isSome then
    { db with steps := db.steps.map (fun r =>
        if r.id == s.id then
          { r with artifactID := s.artifactID, outputHash := s.outputHash,
                   metadata := s.metadata, completedAt := s.completedAt, status := s.status }
        else r) }
  else { db with steps := db.steps ++ [s] }

/-- `WorkflowRepository.UpdateStep`: `UPDATE workflow_steps SET … WHERE
id = $1`. -/
def updateStep (db : DB) (s : WorkflowStep) : DB :=
  { db with steps := db.steps.map (fun r =>
      if r.id == s.id then
        { r with artifactID := s.artifactID, outputHash := s.outputHash,
                 metadata := s.metadata, completedAt := s.completedAt, status := s.status }
      else r) }

/-- Pick the later-created of the accumulated and the next step
(`ORDER BY created_at DESC LIMIT 1`). -/
def latestStep (acc : Option WorkflowStep) (s : WorkflowStep) : Option WorkflowStep :=
  match acc with
  | none => some s
  | some b => if b.createdAt < s.createdAt then some s else some b

/-- The row predicate of `FindStepByInputHash`:
`step_type = $1 AND input_hash = $2 AND status = 'completed'`. -/
def stepHashPred (stepType inputHash : String) (s : WorkflowStep) : Bool :=
  s.stepType == stepType && s.inputHash == inputHash && s.status == "completed"

/-- `WorkflowRepository.FindStepByInputHash`: the most recent step with
the given type and input hash in status `completed`, if any. -/
def findStepByInputHash (db : DB) (stepType inputHash : String) : Option WorkflowStep :=
  (db.steps.filter (stepHashPred stepType inputHash)).foldl latestStep none

/-- `WorkflowRepository.StoreSession`: upsert by id; the conflict clause
does not touch `created_at`. -/
def storeSession (db : DB) (s : WorkflowSession) : DB :=
  if (db.sessions.find? (fun r => r.id == s.id)).isSome then
    { db with sessions := db.sessions.map (fun r =>
        if r.id == s.id then
          { r with goal := s.goal, context := s.context, updatedAt := s.updatedAt,
                   status := s.status }
        else r) }
  else { db with sessions := db.sessions ++ [s] }

/-- `WorkflowRepository.GetSession`. -/
def getSession (db : DB) (id : UUID) : Option WorkflowSession :=
  db.sessions.find? (fun r => r.id == id)

/-- `WorkflowRepository.UpdateSession` (the repository stamps
`updated_at` with its own `time.Now()`). -/
def updateSession (db : DB) (s : WorkflowSession) : DB :=
  { db with
    sessions := db.sessions.map (fun r =>
      if r.id == s.id then
        { r with goal := s.goal, context := s.context, updatedAt := db.clock,
                 status := s.status }
      else r),
    clock := db.clock + 1 }

/-- `WorkflowRepository.FindSimilarSteps`: completed steps of the type,
most recent first, constant score 1.0 (the documented placeholder). -/
def findSimilarSteps (db : DB) (stepType : String) (topK : Int) : List (WorkflowStep × ℚ) :=
  ((List.insertionSort (fun a b => decide (b.createdAt ≤ a.createdAt))
      (db.steps.filter (fun s => s.stepType == stepType && s.status == "completed"))).take
    (Int.toNat topK)).map (fun s => (s, 1))

/-! ## Vector index (`internal/storage/vector/qdrant/client.go`)

The qdrant server is an external collaborator: its query execution is
modelled from the spec (§4.4 of `spec.md`), with the similarity scoring
function abstracted as a parameter `score` (server-side floating-point
cosine similarity).  The client-side request construction — the
string-only filter conditions, the conditional score threshold, the
`uint64` limit — follows `Repository.Search` literally. -/

/-- `Repository.Store` / `Update`: qdrant upsert by point id. -/
def vectorStore (db : DB) (id : UUID) (v : Vec) (payload : JObj) : DB :=
  if (db.points.find? (fun p => p.id == id)).isSome then
    { db with points := db.points.map (fun p => if p.id == id then ⟨id, v, payload⟩ else p) }
  else { db with points := db.points ++ [⟨id, v, payload⟩] }

/-- `Repository.Delete`. -/
def vectorDelete (db : DB) (id : UUID) : DB :=
  { db with points := db.points.filter (fun p => !(p.id == id)) }

/-- The `value.(string)` type assertion of `Repository.Search`: a filter
entry becomes a condition only when its value is a string. -/
def strEntry (p : String × JVal) : Option (String × String) :=
  match p.2 with
  | .str s => some (p.1, s)
  | _ => none

/-- The match conditions `Repository.Search` builds: one keyword
equality condition per string-valued filter entry; every other entry is
skipped. -/
def condsOf (filter : JObj) : List (String × String) :=
  filter.toList.filterMap strEntry

/-- One qdrant keyword match condition against a point payload. -/
def condSat (payload : JObj) (c : String × String) : Bool :=
  match payload.lookup c.1 with
  | some (.str s) => s == c.2
  | _ => false

/-- Go `uint64(topK)`. -/
def goUint64 (i : Int) : Nat := (i % (2 : Int) ^ 64).toNat

/-- Modelled from the spec: qdrant query execution (`search(query_vector,
top_k, min_score, filter)` in §4.4).  The server is not part of the
repository's source; per the spec it keeps the points whose payload
satisfies every condition (logical AND), scores them (`score` abstracts
cosine similarity), drops scores below the threshold when one is set,
ranks by descending score and returns at most `limit` points. -/
def qdrantQuery (score : Vec → Vec → ℚ) (points : List VPoint) (query : Vec) (limit : Nat)
    (threshold : Option ℚ) (conds : List (String × String)) : List (VPoint × ℚ) :=
  let matching := points.filter (fun p => conds.all (condSat p.payload))
  let scored := matching.map (fun p => (p, score query p.vector))
  let kept :=
    match threshold with
    | some m => scored.filter (fun r => !Rat.blt r.2 m)
    | none => scored
  (List.insertionSort (fun a b => (!Rat.blt a.2 b.2) = true) kept).take limit

/-- `Repository.Search`: build the request (string-only conditions,
threshold only when `minScore > 0`, `uint64` limit), run the query, and
convert each hit to a `domain.LookupResult` holding a stub artifact with
only the id and the payload metadata set. -/
def repoSearch (score : Vec → Vec → ℚ) (db : DB) (query : Vec) (topK : Int) (minScore : ℚ)
    (filter : JObj) : List (Artifact × ℚ) :=
  let threshold := if Rat.blt 0 minScore then some minScore else none
  (qdrantQuery score db.points query (goUint64 topK) threshold (condsOf filter)).map
    (fun r => (⟨r.1.id, "", "", [], [], [], r.1.payload, 0, 0, false⟩, r.2))

/-! ## CacheService (`internal/core/services`, cache service) -/

structure LookupOptions where
  query : String
  topK : Int
  minScore : ℚ
  artifactType : String
  includeStale : Bool
  includeContent : Bool
  includeEmbedding : Bool

/-- `CacheService.generateSimpleEmbedding`: hash-based fallback
embedding (first 64 coordinates from the hex digest bytes, rest zero). -/
def generateSimpleEmbedding (text : String) : Vec :=
  let hash := computeInputHash (.str text)
  (List.range 1536).map (fun i =>
    if i < hash.data.length then ((hash.data.getD i ' ').toNat : ℚ) / 255 else 0)

/-- The filter map `CacheService.Lookup` builds: `type` if an artifact
type was given, `stale: false` unless stale artifacts were requested. -/
def buildLookupFilter (opts : LookupOptions) : JObj :=
  JObj.ofList
    ((if opts.artifactType ≠ "" then [("type", JVal.str opts.artifactType)] else []) ++
      (if opts.includeStale then [] else [("stale", JVal.bool false)]))

/-- `CacheService.Lookup`: default `top_k`/`min_score`, embed the query,
search the vector index, enrich every hit from the artifact store
(dropping hits whose artifact is gone), strip content/embedding per
options.  Read-only: returns only the results. -/
def cacheLookup (score : Vec → Vec → ℚ) (db : DB) (opts0 : LookupOptions) :
    List (Artifact × ℚ) :=
  let opts := { opts0 with
    topK := if opts0.topK == 0 then 10 else opts0.topK,
    minScore := if opts0.minScore == 0 then mkRat 17 20 else opts0.minScore }
  let hits := repoSearch score db (generateSimpleEmbedding opts.query) opts.topK opts.minScore
    (buildLookupFilter opts)
  hits.filterMap (fun r =>
    match artifactGetByID db r.1.id with
    | none => none
    | some a =>
      some ({ a with content := if opts.includeContent then a.content else [],
                     embedding := if opts.includeEmbedding then a.embedding else [] }, r.2))

/-- One iteration of the `CacheService.Publish` loop. -/
def publishOne (acc : DB × List UUID × List UUID) (a0 : Artifact) :
    DB × List UUID × List UUID :=
  let db := acc.1
  let aid := if a0.id = 0 then db.nextId else a0.id
  let db := if a0.id = 0 then { db with nextId := db.nextId + 1 } else db
  let created := if a0.createdAt = 0 then db.clock else a0.createdAt
  let db := if a0.createdAt = 0 then { db with clock := db.clock + 1 } else db
  let updated := db.clock
  let db := { db with clock := db.clock + 1 }
  let hash := if a0.contentHash = "" then computeContentHash a0.content else a0.contentHash
  let a := { a0 with id := aid, createdAt := created, updatedAt := updated, contentHash := hash }
  match artifactGetByContentHash db hash with
  | some existing => (db, acc.2.1, acc.2.2 ++ [existing.id])
  | none =>
    let db := artifactStore db a
    let db := if a.embedding.isEmpty then db else vectorStore db a.id a.embedding a.metadata
    let db := a.dependencies.foldl (fun d depID => storeDependency d depID a.id) db
    (db, acc.2.1 ++ [a.id], acc.2.2)

/-- `CacheService.Publish`: returns the final state and the
`(published, skipped)` id lists. -/
def cachePublish (db : DB) (arts : List Artifact) : DB × List UUID × List UUID :=
  arts.foldl publishOne (db, [], [])

/-- `CacheService.Invalidate(source_url)`. -/
def cacheInvalidate (db : DB) (url : String) : DB :=
  markStaleBySourceURL db url

/-- `CacheService.Delete`: vector first, then artifact. -/
def cacheDelete (db : DB) (id : UUID) : DB :=
  artifactDelete (vectorDelete db id) id

/-! ## WorkflowService (`internal/core/services`, workflow service)

The embedding engine is a parameter `embed : String → Option Vec`
(`none` models a provider error). -/

structure StepRequest where
  sessionID : UUID
  stepType : String
  input : JVal
  metadata : JObj

structure StepResponse where
  step : WorkflowStep
  artifact : Option Artifact
  cached : Bool

/-- The step-type → artifact-type default policy in
`simulateStepExecution`. -/
def stepTypeToArtifactType : String → String
  | "scrape" => "RAW"
  | "process" => "DERIVED"
  | "embed" => "DERIVED"
  | "reason" => "REASONING"
  | "answer" => "ANSWER"
  | _ => "DERIVED"

/-- The content `simulateStepExecution` synthesizes. -/
def simulatedContentString (stepType : String) (input : JVal) : String :=
  "Result of " ++ stepType ++ " step with input: " ++ gofmtV input

/-- `WorkflowService.ExecuteStep` (including the inlined
`simulateStepExecution`). -/
def executeStep (embed : String → Option Vec) (db : DB) (req : StepRequest) :
    Except String StepResponse × DB :=
  let inputHash := computeInputHash req.input
  match findStepByInputHash db req.stepType inputHash with
  | some cachedStep =>
    (.ok ⟨cachedStep, artifactGetByID db cachedStep.artifactID, true⟩, db)
  | none =>
    let sid := db.nextId
    let db := { db with nextId := db.nextId + 1 }
    let t0 := db.clock
    let db := { db with clock := db.clock + 1 }
    let step : WorkflowStep :=
      ⟨sid, req.sessionID, req.stepType, 0, inputHash, "", req.metadata, t0, none, "running"⟩
    let db := storeStep db step
    let contentStr := simulatedContentString req.stepType req.input
    match embed contentStr with
    | none =>
      (.error "failed to execute step", updateStep db { step with status := "failed" })
    | some emb =>
      let aid := db.nextId
      let db := { db with nextId := db.nextId + 1 }
      let t1 := db.clock
      let db := { db with clock := db.clock + 1 }
      let t2 := db.clock
      let db := { db with clock := db.clock + 1 }
      let content := utf8Encode contentStr
      let artifact : Artifact :=
        ⟨aid, stepTypeToArtifactType req.stepType, computeContentHash content, content, emb, [],
         JObj.ofList [("step_type", .str req.stepType), ("step_id", .str (toString sid)),
                      ("session_id", .str (toString req.sessionID))],
         t1, t2, false⟩
      let db := artifactStore db artifact
      let db := if emb.isEmpty then db else vectorStore db aid emb artifact.metadata
      let t3 := db.clock
      let db := { db with clock := db.clock + 1 }
      let step2 := { step with artifactID := aid, outputHash := artifact.contentHash,
                               status := "completed", completedAt := some t3 }
      (.ok ⟨step2, some artifact, false⟩, updateStep db step2)

/-- The synthesized content bytes of a missed step (ghost definition:
the value `executeStep` is proved to store). -/
def simulatedContent (req : StepRequest) : List Nat :=
  utf8Encode (simulatedContentString req.stepType req.input)

/-- The completed step row a cache-missing `executeStep` is proved to
leave behind (ghost definition used only in theorem statements). -/
def missStep (db : DB) (req : StepRequest) : WorkflowStep :=
  ⟨db.nextId, req.sessionID, req.stepType, db.nextId + 1, computeInputHash req.input,
   computeContentHash (simulatedContent req), req.metadata, db.clock, some (db.clock + 3),
   "completed"⟩

/-- The artifact row a cache-missing `executeStep` is proved to store
(ghost definition used only in theorem statements). -/
def missArtifact (db : DB) (req : StepRequest) (v : Vec) : Artifact :=
  ⟨db.nextId + 1, stepTypeToArtifactType req.stepType,
   computeContentHash (simulatedContent req), simulatedContent req, v, [],
   JObj.ofList [("step_type", .str req.stepType), ("step_id", .str (toString db.nextId)),
                ("session_id", .str (toString req.sessionID))],
   db.clock + 1, db.clock + 2, false⟩

/-- The failed step row a cache-missing `executeStep` whose embedding
call errors is proved to leave behind (ghost definition). -/
def failStep (db : DB) (req : StepRequest) : WorkflowStep :=
  ⟨db.nextId, req.sessionID, req.stepType, 0, computeInputHash req.input, "", req.metadata,
   db.clock, none, "failed"⟩

/-- `WorkflowService.CreateSession`. -/
def createSession (db : DB) (goal : String) (ctx : JObj) : WorkflowSession × DB :=
  let sid := db.nextId
  let db := { db with nextId := db.nextId + 1 }
  let t0 := db.clock
  let db := { db with clock := db.clock + 1 }
  let t1 := db.clock
  let db := { db with clock := db.clock + 1 }
  let s : WorkflowSession := ⟨sid, goal, ctx, t0, t1, "active"⟩
  (s, storeSession db s)

structure WorkflowLookupRequest where
  sessionID : UUID
  stepType : String
  input : JVal
  topK : Int

/-- `WorkflowService.LookupStep`: embed the stringified input, list
similar completed steps, enrich with their artifacts.  Read-only. -/
def lookupStep (embed : String → Option Vec) (db : DB) (req : WorkflowLookupRequest) :
    Except String (List (WorkflowStep × Option Artifact × ℚ)) × DB :=
  match embed (gofmtV req.input) with
  | none => (.error "failed to generate embedding", db)
  | some _ =>
    (.ok ((findSimilarSteps db req.stepType req.topK).map (fun r =>
      (r.1, if r.1.artifactID ≠ 0 then artifactGetByID db r.1.artifactID else none, r.2))), db)

/-- `WorkflowService.CompleteSession`. -/
def completeSession (db : DB) (sessionID : UUID) : Except String Unit × DB :=
  match getSession db sessionID with
  | none => (.error "session not found", db)
  | some s =>
    let t := db.clock
    let db := { db with clock := db.clock + 1 }
    (.ok (), updateSession db { s with status := "completed", updatedAt := t })

/-- `WorkflowService.FailSession`: also records `failure_reason` in the
session context. -/
def failSession (db : DB) (sessionID : UUID) (reason : String) : Except String Unit × DB :=
  match getSession db sessionID with
  | none => (.error "session not found", db)
  | some s =>
    let t := db.clock
    let db := { db with clock := db.clock + 1 }
    (.ok (), updateSession db
      { s with status := "failed", updatedAt := t,
               context := s.context.set "failure_reason" (.str reason) })

/-- One client-visible operation of the Workflow Service (an
`executeStep` / `lookupStep` operation carries the embedding engine's
behaviour for that call). -/
inductive Op where
  | createSession (goal : String) (ctx : JObj)
  | executeStep (embed : String → Option Vec) (req : StepRequest)
  | lookupStep (embed : String → Option Vec) (req : WorkflowLookupRequest)
  | completeSession (sessionID : UUID)
  | failSession (sessionID : UUID) (reason : String)

/-- State transition of one operation. -/
def applyOp (db : DB) : Op → DB
  | .createSession g c => (createSession db g c).2
  | .executeStep e r => (executeStep e db r).2
  | .lookupStep e r => (lookupStep e db r).2
  | .completeSession i => (completeSession db i).2
  | .failSession i r => (failSession db i r).2

/-- State after a sequence of operations. -/
def applyOps (db : DB) (ops : List Op) : DB :=
  ops.foldl applyOp db

/-- Well-formedness of the state: row ids were assigned below the
fresh-id counter and are duplicate-free.  Holds for every state
reachable from an empty database. -/
def WF (db : DB) : Prop :=
  (∀ s ∈ db.steps, s.id < db.nextId) ∧ (db.steps.map (·.id)).Nodup ∧
    (∀ a ∈ db.artifacts, a.id < db.nextId) ∧ (db.artifacts.map (·.id)).Nodup

instance : DecidablePred WF := fun db => by unfold WF; infer_instance

/-- Is a JSON value a string? (the only filter values `Repository.Search`
turns into conditions). -/
def isStrVal : JVal → Bool
  | .str _ => true
  | _ => false

/-- Is a character a lowercase hex digit? -/
def isHexDigit (c : Char) : Bool :=
  (48 ≤ c.toNat && c.toNat ≤ 57) || (97 ≤ c.toNat && c.toNat ≤ 102)

/-! ## Concrete states and inputs used by witnesses and counterexamples -/

/-- A similarity scoring function giving every pair score 1. -/
def exScore : Vec → Vec → ℚ := fun _ _ => 1

/-- An embedding engine that always answers `[1]`. -/
def exEmbed : String → Option Vec := fun _ => some [1]

/-- The empty database. -/
def emptyDB : DB := ⟨[], [], [], [], [], 1, 1⟩

/-- A state holding one stale artifact (id 9) whose vector is indexed. -/
def c3DB : DB :=
  ⟨[⟨9, "RAW", "h9", [], [], [], .nil, 0, 0, true⟩], [], [], [],
   [⟨9, [1], .nil⟩], 10, 3⟩

/-- Lookup options with `include_stale = false`. -/
def c3Opts : LookupOptions := ⟨"q", 1, mkRat 1 2, "", false, false, false⟩

/-- A state holding one fresh artifact (id 7) whose vector is indexed. -/
def c6DB : DB :=
  ⟨[⟨7, "RAW", "h7", [], [], [], .nil, 0, 0, false⟩], [], [], [],
   [⟨7, [1], .nil⟩], 8, 3⟩

/-- Lookup options with `top_k = 0`. -/
def c6Opts : LookupOptions := ⟨"q", 0, mkRat 1 2, "", true, false, false⟩

/-- A filter map with one string entry and one boolean entry. -/
def c5Filter : JObj := .cons "type" (.str "RAW") (.cons "stale" (.bool false) .nil)

/-- Two points: one with payload `type = RAW`, one with `type = ANSWER`. -/
def c5DB : DB :=
  ⟨[], [], [], [],
   [⟨3, [1], .cons "type" (.str "RAW") .nil⟩, ⟨4, [1], .cons "type" (.str "ANSWER") .nil⟩],
   5, 1⟩

/-- A state with one artifact carrying `metadata.source_url = "u"` and
one without. -/
def c8DB : DB :=
  ⟨[⟨1, "RAW", "ha", [104], [], [], .cons "source_url" (.str "u") .nil, 1, 1, false⟩,
    ⟨2, "RAW", "hb", [105], [], [], .cons "source_url" (.str "w") .nil, 1, 2, false⟩],
   [(1, 2)], [], [], [], 3, 5⟩

/-- A completed step (id 4) for `("scrape", input_hash("u"))` whose
artifact id 6 is absent from the artifact store. -/
def c9DB : DB :=
  ⟨[], [], [],
   [⟨4, 2, "scrape", 6, computeInputHash (.str "u"), "o", .nil, 1, some 2, "completed"⟩],
   [], 7, 3⟩

/-- The request probing the step of `c9DB`. -/
def c9Req : StepRequest := ⟨2, "scrape", .str "u", .nil⟩

/-- A request for the execute-twice scenario. -/
def c1Req : StepRequest := ⟨5, "scrape", .str "u", .nil⟩

/-- An artifact submitted to Publish without id, timestamps, or hash. -/
def c2Art : Artifact := ⟨0, "RAW", "", [104, 105], [1], [], .nil, 0, 0, false⟩

/-- The completed step stored in `c9DB`. -/
def c9Step : WorkflowStep :=
  ⟨4, 2, "scrape", 6, computeInputHash (.str "u"), "o", .nil, 1, some 2, "completed"⟩

/-! ## Supporting lemmas -/

theorem JObj.toList_ofList (l : List (String × JVal)) : (JObj.ofList l).toList = l := by
  induction l with
  | nil => rfl
  | cons p tl ih => cases p; simp [JObj.ofList, JObj.toList, ih]

theorem condsOf_ofList (l : List (String × JVal)) :
    condsOf (JObj.ofList l) = l.filterMap strEntry := by
  unfold condsOf
  rw [JObj.toList_ofList]

theorem condsOf_buildLookupFilter (opts : LookupOptions) :
    condsOf (buildLookupFilter opts) =
      if opts.artifactType ≠ "" then [("type", opts.artifactType)] else [] := by
  unfold buildLookupFilter
  rw [condsOf_ofList, List.filterMap_append]
  cases hs : opts.includeStale <;> by_cases ht : opts.artifactType ≠ "" <;>
    simp [ht, List.filterMap, strEntry]

theorem repoSearch_congr_conds (score : Vec → Vec → ℚ) (db : DB) (q : Vec) (k : Int) (m : ℚ)
    (f1 f2 : JObj) (h : condsOf f1 = condsOf f2) :
    repoSearch score db q k m f1 = repoSearch score db q k m f2 := by
  unfold repoSearch
  rw [h]

/-! ## Claim C9 -/

/-- C9: if `ExecuteStep` finds a completed step for
`(step_type, input_hash)` but the linked artifact has been deleted from
the artifact store, the call returns `cached = true` with a null
artifact and no error, re-executes nothing and creates no step row (the
state is unchanged). -/
theorem c9_cached_hit_with_deleted_artifact (embed : String → Option Vec) (db : DB)
    (req : StepRequest) (s : WorkflowStep)
    (hfind : findStepByInputHash db req.stepType (computeInputHash req.input) = some s)
    (hart : artifactGetByID db s.artifactID = none) :
    executeStep embed db req = (.ok ⟨s, none, true⟩, db) := by
  simp only [executeStep, hfind, hart]

theorem c9_witness : executeStep exEmbed c9DB c9Req = (.ok ⟨c9Step, none, true⟩, c9DB) :=
  c9_cached_hit_with_deleted_artifact exEmbed c9DB c9Req c9Step (by rfl) (by rfl)

/-! ## Claim C6 (corrected) -/

/-- C6 counterexample: `Lookup` with `top_k = 0` does not return an
empty list — on a state with one matching indexed artifact it returns
that artifact (the default of 10 is applied). -/
theorem c6_counterexample :
    c6Opts.topK = 0 ∧ cacheLookup exScore c6DB c6Opts ≠ [] ∧
    (cacheLookup exScore c6DB c6Opts).map (fun r => (r.1.id, r.2)) = [(7, 1)] := by
  refine ⟨rfl, ?_, by rfl⟩
  intro h
  have hl : (cacheLookup exScore c6DB c6Opts).length = 1 := by rfl
  rw [h] at hl
  exact absurd hl (by decide)

/-- C6 amended: `Lookup` with `top_k = 0` applies the documented default
of 10 — it behaves exactly like `top_k = 10` (it does not return an
empty list). -/
theorem c6_amended_topk_zero_applies_default (score : Vec → Vec → ℚ) (db : DB)
    (opts : LookupOptions) (h : opts.topK = 0) :
    cacheLookup score db opts = cacheLookup score db { opts with topK := 10 } := by
  unfold cacheLookup
  simp [h]

theorem c6_witness :
    cacheLookup exScore c6DB c6Opts = cacheLookup exScore c6DB { c6Opts with topK := 10 } :=
  c6_amended_topk_zero_applies_default exScore c6DB c6Opts (by rfl)

/-! ## Claim C3 (corrected) -/

/-- C3 counterexample: an artifact marked stale is returned by `Lookup`
with `include_stale = false` — the `stale: false` filter entry is a
boolean, which the vector search silently drops. -/
theorem c3_counterexample :
    c3Opts.includeStale = false ∧ (∀ a ∈ c3DB.artifacts, a.stale = true) ∧
    (cacheLookup exScore c3DB c3Opts).map (fun r => (r.1.id, r.1.stale)) = [(9, true)] :=
  ⟨rfl, by decide, by rfl⟩

/-- C3 amended: the `stale: false` entry `Lookup` builds is
boolean-valued, so the vector search ignores it entirely; `Lookup`
returns the same results with `include_stale = false` as with
`include_stale = true`, and in particular stale artifacts are not
excluded. -/
theorem c3_amended_stale_filter_ignored (score : Vec → Vec → ℚ) (db : DB)
    (opts : LookupOptions) :
    cacheLookup score db { opts with includeStale := false } =
      cacheLookup score db { opts with includeStale := true } := by
  simp only [cacheLookup]
  exact congrArg (List.filterMap _)
    (repoSearch_congr_conds _ _ _ _ _ _ _
      (by rw [condsOf_buildLookupFilter, condsOf_buildLookupFilter]))

/-! ## Claim C5 -/

theorem mem_qdrantQuery (score : Vec → Vec → ℚ) (points : List VPoint) (q : Vec) (limit : Nat)
    (threshold : Option ℚ) (conds : List (String × String)) (r : VPoint × ℚ)
    (h : r ∈ qdrantQuery score points q limit threshold conds) :
    ∃ p, p ∈ points ∧ conds.all (condSat p.payload) = true ∧ r = (p, score q p.vector) := by
  unfold qdrantQuery at h
  have h1 := (List.perm_insertionSort _ _).mem_iff.mp (List.take_subset _ _ h)
  cases threshold with
  | none =>
    obtain ⟨p, hp, rfl⟩ := List.mem_map.mp h1
    exact ⟨p, (List.mem_filter.mp hp).1, (List.mem_filter.mp hp).2, rfl⟩
  | some m =>
    obtain ⟨p, hp, rfl⟩ := List.mem_map.mp (List.mem_filter.mp h1).1
    exact ⟨p, (List.mem_filter.mp hp).1, (List.mem_filter.mp hp).2, rfl⟩

theorem mem_repoSearch (score : Vec → Vec → ℚ) (db : DB) (q : Vec) (topK : Int) (minScore : ℚ)
    (filter : JObj) (hit : Artifact × ℚ)
    (h : hit ∈ repoSearch score db q topK minScore filter) :
    ∃ p, p ∈ db.points ∧ (condsOf filter).all (condSat p.payload) = true ∧
      hit.1.id = p.id ∧ hit.1.metadata = p.payload := by
  unfold repoSearch at h
  obtain ⟨r, hr, rfl⟩ := List.mem_map.mp h
  obtain ⟨p, hp, hc, rfl⟩ := mem_qdrantQuery _ _ _ _ _ _ _ hr
  exact ⟨p, hp, hc, rfl, rfl⟩

/-- C5: the vector index search applies an equality match for every
string-valued filter entry, combined by logical AND — every returned hit
carries a payload binding each such key to exactly the required string —
and every entry whose value is not a string is silently ignored: the
search result is unchanged when they are removed from the filter (and no
error is raised; the search is total). -/
theorem c5_search_filter_semantics (score : Vec → Vec → ℚ) (db : DB) (q : Vec) (topK : Int)
    (minScore : ℚ) (filter : JObj) :
    repoSearch score db q topK minScore filter =
      repoSearch score db q topK minScore
        (JObj.ofList (filter.toList.filter (fun p => isStrVal p.2))) ∧
    (∀ hit ∈ repoSearch score db q topK minScore filter, ∀ k s,
      (k, JVal.str s) ∈ filter.toList → hit.1.metadata.lookup k = some (JVal.str s)) := by
  constructor
  · refine repoSearch_congr_conds _ _ _ _ _ _ _ ?_
    rw [condsOf_ofList]
    unfold condsOf
    induction filter.toList with
    | nil => rfl
    | cons p tl ih =>
      obtain ⟨k, v⟩ := p
      cases v <;> simp [List.filter_cons, isStrVal, List.filterMap_cons, strEntry, ih]
  · intro hit hmem k s hks
    obtain ⟨p, _, hall, _, hmeta⟩ := mem_repoSearch _ _ _ _ _ _ _ hmem
    have hcond : condSat p.payload (k, s) = true := by
      refine (List.all_eq_true.mp hall) (k, s) ?_
      exact List.mem_filterMap.mpr ⟨(k, .str s), hks, rfl⟩
    rw [hmeta]
    unfold condSat at hcond
    cases hl : p.payload.lookup k with
    | none => rw [hl] at hcond; exact absurd hcond (by simp)
    | some v =>
      cases v <;> rw [hl] at hcond <;> simp at hcond
      case str s' => rw [hcond]

theorem c5_witness :
    repoSearch exScore c5DB [] 10 0 c5Filter =
      repoSearch exScore c5DB [] 10 0
        (JObj.ofList (c5Filter.toList.filter (fun p => isStrVal p.2))) ∧
    (∀ hit ∈ repoSearch exScore c5DB [] 10 0 c5Filter, ∀ k s,
      (k, JVal.str s) ∈ c5Filter.toList → hit.1.metadata.lookup k = some (JVal.str s)) :=
  c5_search_filter_semantics exScore c5DB [] 10 0 c5Filter

/-! ## Claim C8 -/

/-- C8: `Invalidate(source_url)` sets `stale := true` and bumps
`updated_at` on exactly the artifacts whose `metadata.source_url` equals
the url — every other field of those rows and every other row, the
dependency edges, sessions, steps, vector points and the id counter are
untouched. -/
theorem c8_invalidate_frame (db : DB) (url : String)
    (hclk : ∀ a ∈ db.artifacts, a.updatedAt < db.clock) :
    (cacheInvalidate db url).artifacts.length = db.artifacts.length ∧
    (∀ i (h1 : i < db.artifacts.length) (h2 : i < (cacheInvalidate db url).artifacts.length),
      (jsonFieldText ((db.artifacts.get ⟨i, h1⟩).metadata.lookup "source_url") = some url →
        (cacheInvalidate db url).artifacts.get ⟨i, h2⟩ =
          { db.artifacts.get ⟨i, h1⟩ with stale := true, updatedAt := db.clock } ∧
        (db.artifacts.get ⟨i, h1⟩).updatedAt <
          ((cacheInvalidate db url).artifacts.get ⟨i, h2⟩).updatedAt) ∧
      (jsonFieldText ((db.artifacts.get ⟨i, h1⟩).metadata.lookup "source_url") ≠ some url →
        (cacheInvalidate db url).artifacts.get ⟨i, h2⟩ = db.artifacts.get ⟨i, h1⟩)) ∧
    (cacheInvalidate db url).deps = db.deps ∧
    (cacheInvalidate db url).sessions = db.sessions ∧
    (cacheInvalidate db url).steps = db.steps ∧
    (cacheInvalidate db url).points = db.points ∧
    (cacheInvalidate db url).nextId = db.nextId := by
  unfold cacheInvalidate markStaleBySourceURL
  refine ⟨by simp, ?_, rfl, rfl, rfl, rfl, rfl⟩
  intro i h1 h2
  simp only [List.get_eq_getElem, List.getElem_map]
  constructor
  · intro hurl
    rw [if_pos (by simp [hurl])]
    exact ⟨rfl, lt_of_lt_of_le (hclk _ (List.getElem_mem h1)) (le_refl _)⟩
  · intro hurl
    rw [if_neg (by simpa using hurl)]

/-! ## Claim C10: text normalization lemmas -/

theorem isGoSpace_lowerByte (b : Nat) : isGoSpace (lowerByte b) = isGoSpace b := by
  unfold lowerByte isGoSpace
  split_ifs with h
  · have h1 : ¬(b + 32 == 32 || b + 32 == 9 || b + 32 == 10 || b + 32 == 11 ||
        b + 32 == 12 || b + 32 == 13) = true := by simp; omega
    have h2 : ¬(b == 32 || b == 9 || b == 10 || b == 11 || b == 12 || b == 13) = true := by
      simp; omega
    rw [Bool.eq_false_iff.mpr h1, Bool.eq_false_iff.mpr h2]
  · rfl

theorem lowerByte_idem (b : Nat) : lowerByte (lowerByte b) = lowerByte b := by
  unfold lowerByte
  split_ifs <;> omega

theorem dropWhile_goToLower (s : List Nat) :
    (goToLower s).dropWhile isGoSpace = goToLower (s.dropWhile isGoSpace) := by
  unfold goToLower
  induction s with
  | nil => rfl
  | cons b t ih =>
    simp only [List.map_cons, List.dropWhile_cons, isGoSpace_lowerByte]
    cases hb : isGoSpace b <;> simp [hb, ih]

theorem rdropWhile_goToLower (s : List Nat) :
    (goToLower s).rdropWhile isGoSpace = goToLower (s.rdropWhile isGoSpace) := by
  unfold List.rdropWhile
  rw [goToLower, ← List.map_reverse, ← goToLower, dropWhile_goToLower, goToLower,
    ← List.map_reverse]
  rfl

theorem goTrimSpace_goToLower (s : List Nat) :
    goTrimSpace (goToLower s) = goToLower (goTrimSpace s) := by
  unfold goTrimSpace
  rw [dropWhile_goToLower, rdropWhile_goToLower]

theorem goToLower_idem (s : List Nat) : goToLower (goToLower s) = goToLower s := by
  unfold goToLower
  rw [List.map_map]
  exact List.map_congr_left (fun b _ => lowerByte_idem b)

theorem goTrimSpace_idem (s : List Nat) : goTrimSpace (goTrimSpace s) = goTrimSpace s := by
  unfold goTrimSpace
  have hv : (List.rdropWhile isGoSpace (s.dropWhile isGoSpace)).dropWhile isGoSpace =
      List.rdropWhile isGoSpace (s.dropWhile isGoSpace) := by
    cases hveq : List.rdropWhile isGoSpace (s.dropWhile isGoSpace) with
    | nil => rfl
    | cons a w =>
      obtain ⟨t, ht⟩ := List.rdropWhile_prefix isGoSpace (s.dropWhile isGoSpace)
      rw [hveq] at ht
      have hu : List.dropWhile isGoSpace (s.dropWhile isGoSpace) = s.dropWhile isGoSpace :=
        List.dropWhile_idempotent isGoSpace s
      rw [← ht] at hu
      by_cases hpa : isGoSpace a = true
      · exfalso
        rw [List.cons_append, List.dropWhile_cons, if_pos hpa] at hu
        have hlen := congrArg List.length hu
        have hle := (List.dropWhile_sublist (l := w ++ t) isGoSpace).length_le
        simp [List.length_append] at hlen hle
        omega
      · simp [List.dropWhile_cons, hpa]
  rw [hv, List.rdropWhile_idempotent]

theorem normalizeMockText_idem (s : List Nat) :
    normalizeMockText (normalizeMockText s) = normalizeMockText s := by
  unfold normalizeMockText
  rw [goTrimSpace_goToLower, goToLower_idem, goTrimSpace_idem]

theorem mockNormalizeEmbedding_length (ops : FOps) (l : List ℚ) :
    (mockNormalizeEmbedding ops l).length = l.length := by
  simp only [mockNormalizeEmbedding]
  split <;> simp

/-! ## Claim C10 -/

/-- C10: the mock embedding provider is invariant under letter case and
surrounding whitespace — `GenerateEmbedding(s)` equals
`GenerateEmbedding` of the lowercased, trimmed form of `s`, and any two
texts with the same normalized form get identical embeddings — the
vector has 1536 coordinates, and `GenerateEmbeddings` returns one such
vector per input, in order.  All floating-point operations are
quantified over (`ops`), so this holds for the IEEE interpretation. -/
theorem c10_mock_embedding_invariance (ops : FOps) (s : List Nat) (texts : List (List Nat)) :
    mockGenerateEmbedding ops s = mockGenerateEmbedding ops (goToLower (goTrimSpace s)) ∧
    (mockGenerateEmbedding ops s).length = 1536 ∧
    (∀ s1 s2 : List Nat, normalizeMockText s1 = normalizeMockText s2 →
      mockGenerateEmbedding ops s1 = mockGenerateEmbedding ops s2) ∧
    mockGenerateEmbeddings ops texts = texts.map (mockGenerateEmbedding ops) ∧
    (mockGenerateEmbeddings ops texts).length = texts.length := by
  have hkey : ∀ s1 s2 : List Nat, normalizeMockText s1 = normalizeMockText s2 →
      mockGenerateEmbedding ops s1 = mockGenerateEmbedding ops s2 := by
    intro s1 s2 h
    simp only [mockGenerateEmbedding, mockCreateEmbedding, h]
  refine ⟨?_, ?_, hkey, rfl, ?_⟩
  · exact hkey s (goToLower (goTrimSpace s)) (normalizeMockText_idem s).symm
  · simp only [mockGenerateEmbedding, mockCreateEmbedding]
    rw [mockNormalizeEmbedding_length]
    simp
  · simp [mockGenerateEmbeddings]

theorem c10_witness :
    normalizeMockText [72, 105, 32] = normalizeMockText [104, 105] ∧
    mockGenerateEmbedding exactFOps [72, 105, 32] = mockGenerateEmbedding exactFOps [104, 105] ∧
    (mockGenerateEmbedding exactFOps [72, 105, 32]).length = 1536 :=
  ⟨by rfl,
   (c10_mock_embedding_invariance exactFOps [72, 105, 32] []).2.2.1 [72, 105, 32] [104, 105]
     (by rfl),
   (c10_mock_embedding_invariance exactFOps [72, 105, 32] []).2.1⟩

/-! ## Claim C4: supporting order lemmas -/

theorem chLe_total : ∀ x y : List Char, chLe x y = true ∨ chLe y x = true := by
  intro x
  induction x with
  | nil => intro y; left; rfl
  | cons a as ih =>
    intro y
    cases y with
    | nil => right; rfl
    | cons b bs =>
      rcases Nat.lt_trichotomy a.toNat b.toNat with h | h | h
      · left; simp [chLe, h]
      · rcases ih bs with h2 | h2
        · left; simp [chLe, h, h2]
        · right; simp [chLe, h.symm, h2]
      · right; simp [chLe, h]

theorem chLe_trans : ∀ x y z : List Char,
    chLe x y = true → chLe y z = true → chLe x z = true := by
  intro x
  induction x with
  | nil => intro y z _ _; rfl
  | cons a as ih =>
    intro y z hxy hyz
    cases y with
    | nil => simp [chLe] at hxy
    | cons b bs =>
      cases z with
      | nil => simp [chLe] at hyz
      | cons c cs =>
        unfold chLe at hxy hyz ⊢
        rcases Nat.lt_trichotomy a.toNat b.toNat with h1 | h1 | h1 <;>
          rcases Nat.lt_trichotomy b.toNat c.toNat with h2 | h2 | h2
        · rw [if_pos (by omega)]
        · rw [if_pos (by omega)]
        · rw [if_neg (by omega), if_pos (by omega)] at hyz
          exact absurd hyz (by simp)
        · rw [if_pos (by omega)]
        · rw [if_neg (by omega), if_neg (by omega)] at hxy hyz ⊢
          exact ih bs cs hxy hyz
        · rw [if_neg (by omega), if_pos (by omega)] at hyz
          exact absurd hyz (by simp)
        · rw [if_neg (by omega), if_pos (by omega)] at hxy
          exact absurd hxy (by simp)
        · rw [if_neg (by omega), if_pos (by omega)] at hxy
          exact absurd hxy (by simp)
        · rw [if_neg (by omega), if_pos (by omega)] at hxy
          exact absurd hxy (by simp)

theorem chLe_antisymm : ∀ x y : List Char, chLe x y = true → chLe y x = true → x = y := by
  intro x
  induction x with
  | nil =>
    intro y _ h2
    cases y with
    | nil => rfl
    | cons b bs => simp [chLe] at h2
  | cons a as ih =>
    intro y h1 h2
    cases y with
    | nil => simp [chLe] at h1
    | cons b bs =>
      unfold chLe at h1 h2
      rcases Nat.lt_trichotomy a.toNat b.toNat with h | h | h
      · rw [if_neg (by omega), if_pos (by omega)] at h2
        exact absurd h2 (by simp)
      · have hab : a = b := by
          have hc := congrArg Char.ofNat h
          rwa [Char.ofNat_toNat, Char.ofNat_toNat] at hc
        subst hab
        rw [if_neg (by omega), if_neg (by omega)] at h1 h2
        rw [ih bs h1 h2]
      · rw [if_neg (by omega), if_pos (by omega)] at h1
        exact absurd h1 (by simp)

theorem strLe_total (a b : String) : strLe a b = true ∨ strLe b a = true :=
  chLe_total a.data b.data

theorem strLe_trans {a b c : String} (h1 : strLe a b = true) (h2 : strLe b c = true) :
    strLe a c = true :=
  chLe_trans a.data b.data c.data h1 h2

theorem strLe_antisymm {a b : String} (h1 : strLe a b = true) (h2 : strLe b a = true) :
    a = b := by
  cases a with | mk xs =>
  cases b with | mk ys =>
  exact congrArg String.mk (chLe_antisymm xs ys h1 h2)

/-- `orderedInsert` by key commutes with a key-preserving map of the
values. -/
theorem orderedInsert_map_key {α β : Type} (f : String × α → String × β)
    (hf : ∀ p, (f p).1 = p.1) (a : String × α) :
    ∀ l : List (String × α),
      (List.orderedInsert (fun x y => strLe x.1 y.1 = true) a l).map f =
        List.orderedInsert (fun x y => strLe x.1 y.1 = true) (f a) (l.map f) := by
  intro l
  induction l with
  | nil => rfl
  | cons b t ih =>
    simp only [List.map_cons, List.orderedInsert, hf]
    by_cases h : strLe a.1 b.1 = true
    · rw [if_pos h, if_pos h]
      simp
    · rw [if_neg h, if_neg h]
      simp only [List.map_cons, ih]

/-- `insertionSort` by key commutes with a key-preserving map of the
values. -/
theorem insertionSort_map_key {α β : Type} (f : String × α → String × β)
    (hf : ∀ p, (f p).1 = p.1) :
    ∀ l : List (String × α),
      (List.insertionSort (fun x y => strLe x.1 y.1 = true) l).map f =
        List.insertionSort (fun x y => strLe x.1 y.1 = true) (l.map f) := by
  intro l
  induction l with
  | nil => rfl
  | cons b t ih =>
    simp only [List.insertionSort, List.map_cons]
    rw [orderedInsert_map_key f hf, ih]

/-- `marshalFields` over an association list. -/
theorem marshalFields_ofList :
    ∀ l : List (String × JVal),
      marshalFields (JObj.ofList l) = l.map (fun p => (p.1, jsonMarshal p.2))
  | [] => rfl
  | (k, v) :: tl => by
    simp only [JObj.ofList, marshalFields, List.map_cons]
    rw [marshalFields_ofList tl]

/-- `canonFields` over an association list. -/
theorem canonFields_ofList :
    ∀ l : List (String × JVal),
      canonFields (JObj.ofList l) = l.map (fun p => (p.1, canon p.2))
  | [] => rfl
  | (k, v) :: tl => by
    simp only [JObj.ofList, canonFields, List.map_cons]
    rw [canonFields_ofList tl]

/-- Sorting rendered pairs a second time changes nothing. -/
theorem sortRendered_insertionSort (l : List (String × String)) :
    sortRendered (List.insertionSort (fun x y => strLe x.1 y.1 = true) l) =
      List.insertionSort (fun x y => strLe x.1 y.1 = true) l := by
  letI : IsTotal (String × String) (fun x y => strLe x.1 y.1 = true) :=
    ⟨fun a b => strLe_total a.1 b.1⟩
  letI : IsTrans (String × String) (fun x y => strLe x.1 y.1 = true) :=
    ⟨fun _ _ _ => strLe_trans⟩
  exact (List.sorted_insertionSort _ l).insertionSort_eq

mutual

theorem jsonMarshal_canon : ∀ v : JVal, jsonMarshal (canon v) = jsonMarshal v
  | .null => rfl
  | .bool _ => rfl
  | .num _ => rfl
  | .str _ => rfl
  | .arr xs => by
    simp only [canon, jsonMarshal]
    rw [marshalElems_canonElems xs]
  | .obj fs => by
    simp only [canon, jsonMarshal, sortFields]
    rw [marshalFields_ofList,
        insertionSort_map_key (fun p => (p.1, jsonMarshal p.2)) (fun _ => rfl),
        marshalFields_canonFields fs, sortRendered_insertionSort]
    rfl

theorem marshalElems_canonElems :
    ∀ xs : JArr, marshalElems (JArr.ofList (canonElems xs)) = marshalElems xs
  | .nil => rfl
  | .cons x xs => by
    simp only [canonElems, JArr.ofList, marshalElems]
    rw [jsonMarshal_canon x, marshalElems_canonElems xs]

theorem marshalFields_canonFields :
    ∀ fs : JObj,
      (canonFields fs).map (fun p => (p.1, jsonMarshal p.2)) = marshalFields fs
  | .nil => rfl
  | .cons k v fs => by
    simp only [canonFields, marshalFields, List.map_cons]
    rw [jsonMarshal_canon v, marshalFields_canonFields fs]

end

/-- Sorting the fields of two permuted duplicate-free association lists
yields the same list. -/
theorem sortFields_eq_of_perm (l1 l2 : List (String × JVal)) (hp : l1.Perm l2)
    (hn : (l1.map Prod.fst).Nodup) : sortFields l1 = sortFields l2 := by
  have sorted_strict : ∀ l : List (String × JVal), (l.map Prod.fst).Nodup →
      (sortFields l).Pairwise (fun x y : String × JVal =>
        strLe x.1 y.1 = true ∧ ¬strLe y.1 x.1 = true) := by
    intro l hl
    letI : IsTotal (String × JVal) (fun x y => strLe x.1 y.1 = true) :=
      ⟨fun a b => strLe_total a.1 b.1⟩
    letI : IsTrans (String × JVal) (fun x y => strLe x.1 y.1 = true) :=
      ⟨fun _ _ _ => strLe_trans⟩
    have hsorted : (sortFields l).Pairwise (fun x y => strLe x.1 y.1 = true) :=
      List.sorted_insertionSort _ l
    have hkeys : ((sortFields l).map Prod.fst).Nodup :=
      ((List.perm_insertionSort _ l).map Prod.fst).nodup_iff.mpr hl
    have hne : (sortFields l).Pairwise (fun x y : String × JVal => x.1 ≠ y.1) :=
      List.pairwise_map.mp hkeys
    exact (hsorted.and hne).imp (fun h =>
      ⟨h.1, fun hba => h.2 (strLe_antisymm h.1 hba)⟩)
  have hn2 : (l2.map Prod.fst).Nodup := ((hp.map Prod.fst).nodup_iff).mp hn
  letI : IsAntisymm (String × JVal) (fun x y : String × JVal =>
      strLe x.1 y.1 = true ∧ ¬strLe y.1 x.1 = true) :=
    ⟨fun _ _ h1 h2 => absurd h1.1 h2.2⟩
  exact List.eq_of_perm_of_sorted
    (((List.perm_insertionSort _ l1).trans hp).trans (List.perm_insertionSort _ l2).symm)
    (sorted_strict l1 hn) (sorted_strict l2 hn2)

/-! ## Claim C4: supporting digest-shape lemmas -/

theorem wordBytes_length (w : Nat) : (wordBytes w).length = 4 := rfl

theorem sha256_length (msg : List Nat) : (sha256 msg).length = 32 := by
  simp [sha256, wordBytes]

theorem wordBytes_lt (w : Nat) : ∀ b ∈ wordBytes w, b < 256 := by
  intro b hb
  simp [wordBytes] at hb
  rcases hb with h | h | h | h <;> omega

theorem sha256_bytes_lt (msg : List Nat) : ∀ b ∈ sha256 msg, b < 256 := by
  intro b hb
  simp only [sha256, List.mem_append] at hb
  rcases hb with ((((((h | h) | h) | h) | h) | h) | h) | h <;> exact wordBytes_lt _ b h

theorem hexChar_isHexDigit (n : Nat) (h : n < 16) : isHexDigit (hexChar n) = true := by
  interval_cases n <;> decide

theorem bytesToHex_length (bs : List Nat) : (bytesToHex bs).length = 2 * bs.length := by
  show (bs.flatMap (fun b => [hexChar (b / 16), hexChar (b % 16)])).length = 2 * bs.length
  induction bs with
  | nil => rfl
  | cons b tl ih => simp [List.flatMap_cons, ih]; omega

theorem bytesToHex_all_hex (bs : List Nat) (h : ∀ b ∈ bs, b < 256) :
    (bytesToHex bs).data.all isHexDigit = true := by
  show (bs.flatMap (fun b => [hexChar (b / 16), hexChar (b % 16)])).all isHexDigit = true
  induction bs with
  | nil => rfl
  | cons b tl ih =>
    have hb := h b (by simp)
    simp only [List.flatMap_cons, List.all_append, Bool.and_eq_true]
    refine ⟨?_, ih (fun x hx => h x (by simp [hx]))⟩
    simp [hexChar_isHexDigit (b / 16) (by omega), hexChar_isHexDigit (b % 16) (by omega)]

/-! ## Claim C4 -/

/-- C4: `ComputeInputHash` is invariant under structural equality of
JSON-like values — equal canonical forms give equal hashes, and
reordering the (duplicate-free) fields of an object does not change the
canonical form — and the result is the 64-hex content hash of the
canonical serialization of the value. -/
theorem c4_input_hash_canonical (x y : JVal) (h : canon x = canon y) :
    computeInputHash x = computeInputHash y ∧
    computeInputHash x = computeContentHash (utf8Encode (jsonMarshal x)) ∧
    (computeInputHash x).length = 64 ∧
    (computeInputHash x).data.all isHexDigit = true ∧
    (∀ fs gs : List (String × JVal), fs.Perm gs → (fs.map Prod.fst).Nodup →
      canon (.obj (JObj.ofList fs)) = canon (.obj (JObj.ofList gs))) := by
  refine ⟨?_, rfl, ?_, ?_, ?_⟩
  · have hm : jsonMarshal x = jsonMarshal y := by
      rw [← jsonMarshal_canon x, ← jsonMarshal_canon y, h]
    unfold computeInputHash
    rw [hm]
  · unfold computeInputHash computeContentHash
    rw [bytesToHex_length, sha256_length]
  · unfold computeInputHash computeContentHash
    exact bytesToHex_all_hex _ (sha256_bytes_lt _)
  · intro fs gs hp hn
    simp only [canon]
    rw [canonFields_ofList, canonFields_ofList]
    rw [sortFields_eq_of_perm (fs.map (fun p => (p.1, canon p.2)))
      (gs.map (fun p => (p.1, canon p.2))) (hp.map _) (by
        rw [List.map_map]
        exact hn)]

theorem c4_witness :
    canon (JVal.obj (.cons "b" (.num 1) (.cons "a" (.str "x") .nil))) =
      canon (JVal.obj (.cons "a" (.str "x") (.cons "b" (.num 1) .nil))) ∧
    computeInputHash (JVal.obj (.cons "b" (.num 1) (.cons "a" (.str "x") .nil))) =
      computeInputHash (JVal.obj (.cons "a" (.str "x") (.cons "b" (.num 1) .nil))) ∧
    computeInputHash (JVal.obj (.cons "b" (.num 1) (.cons "a" (.str "x") .nil))) =
      "cdab067e9f3beb32d1252cfd63e492592fecbf591b0d08cadb24bb17f3864246" :=
  ⟨by rfl,
   (c4_input_hash_canonical _ _ (by rfl)).1,
   by rfl⟩

theorem c8_witness :
    (∀ a ∈ c8DB.artifacts, a.updatedAt < c8DB.clock) ∧
    (cacheInvalidate c8DB "u").artifacts.length = c8DB.artifacts.length ∧
    (cacheInvalidate c8DB "u").deps = c8DB.deps ∧
    (cacheInvalidate c8DB "u").steps = c8DB.steps :=
  ⟨by decide,
   (c8_invalidate_frame c8DB "u" (by decide)).1,
   (c8_invalidate_frame c8DB "u" (by decide)).2.2.1,
   (c8_invalidate_frame c8DB "u" (by decide)).2.2.2.2.1⟩

/-! ## Claim C2 -/

theorem foldl_storeDependency_artifacts (l : List UUID) :
    ∀ (db : DB) (cid : UUID),
      (l.foldl (fun d depID => storeDependency d depID cid) db).artifacts = db.artifacts := by
  induction l with
  | nil => intro db cid; rfl
  | cons x t ih =>
    intro db cid
    rw [List.foldl_cons, ih]
    unfold storeDependency
    split <;> rfl

/-- The skip path of the Publish loop: an artifact whose content hash is
already stored adds the existing id to `skipped` and writes nothing. -/
theorem publishOne_skip (db : DB) (b ex : Artifact) (hb : b.contentHash = "")
    (hex : artifactGetByContentHash db (computeContentHash b.content) = some ex)
    (p s : List UUID) :
    (publishOne (db, p, s) b).2.1 = p ∧
    (publishOne (db, p, s) b).2.2 = s ++ [ex.id] ∧
    (publishOne (db, p, s) b).1.artifacts = db.artifacts := by
  unfold artifactGetByContentHash at hex
  by_cases h1 : b.id = 0 <;> by_cases h2 : b.createdAt = 0 <;>
    simp only [publishOne, h1, h2, hb, if_pos, if_neg, ite_true, ite_false,
      artifactGetByContentHash, hex] <;>
    exact ⟨by trivial, by trivial, by trivial⟩

theorem vectorStore_artifacts (db : DB) (id : UUID) (v : Vec) (pl : JObj) :
    (vectorStore db id v pl).artifacts = db.artifacts := by
  unfold vectorStore
  split <;> rfl

/-- The publish path of the Publish loop: a fresh artifact (no id, no
hash, hash not yet stored) is stored under the fresh id and appended to
`published`. -/
theorem publishOne_publish (db : DB) (a : Artifact) (h0 : a.id = 0)
    (ha : a.contentHash = "") (hwf : ∀ r ∈ db.artifacts, r.id < db.nextId)
    (hnone : artifactGetByContentHash db (computeContentHash a.content) = none)
    (p s : List UUID) :
    (publishOne (db, p, s) a).2.1 = p ++ [db.nextId] ∧
    (publishOne (db, p, s) a).2.2 = s ∧
    (publishOne (db, p, s) a).1.artifacts = db.artifacts ++
      [{ a with
          id := db.nextId,
          createdAt := (if a.createdAt = 0 then db.clock else a.createdAt),
          updatedAt := (if a.createdAt = 0 then db.clock + 1 else db.clock),
          contentHash := computeContentHash a.content }] := by
  unfold artifactGetByContentHash at hnone
  have hid : db.artifacts.find? (fun r => r.id == db.nextId) = none := by
    rw [List.find?_eq_none]
    intro r hr
    simp only [beq_iff_eq]
    exact Nat.ne_of_lt (hwf r hr)
  by_cases h2 : a.createdAt = 0 <;>
    simp only [publishOne, h0, h2, ha, if_pos, if_neg, ite_true, ite_false,
      artifactGetByContentHash, hnone] <;>
    refine ⟨by trivial, by trivial, ?_⟩ <;>
    rw [foldl_storeDependency_artifacts] <;>
    split <;>
    simp only [vectorStore_artifacts, artifactStore, hid, Option.isSome_none,
      Bool.false_eq_true, if_false, ite_false]

/-- C2: Publish is idempotent on content.  Publishing a batch holding
one new artifact (no id, no hash, content not yet stored) publishes it
under the freshly assigned id and skips nothing; every later Publish of
an artifact with equal content (hence equal content hash) skips it,
returning the already-stored id, publishing nothing and storing no
second artifact row; and the stored row is found by content hash under
the first call's id. -/
theorem c2_publish_idempotent (db : DB) (a : Artifact) (h0 : a.id = 0)
    (ha : a.contentHash = "") (hwf : WF db)
    (hnew : artifactGetByContentHash db (computeContentHash a.content) = none) :
    (cachePublish db [a]).2.1 = [db.nextId] ∧
    (cachePublish db [a]).2.2 = [] ∧
    (∃ r, artifactGetByContentHash (cachePublish db [a]).1 (computeContentHash a.content) =
        some r ∧ r.id = db.nextId) ∧
    (∀ db' b ex, b.content = a.content → b.contentHash = "" →
      artifactGetByContentHash db' (computeContentHash a.content) = some ex →
      (cachePublish db' [b]).2.1 = [] ∧ (cachePublish db' [b]).2.2 = [ex.id] ∧
      (cachePublish db' [b]).1.artifacts = db'.artifacts) := by
  have hp := publishOne_publish db a h0 ha hwf.2.2.1 hnew [] []
  have e : cachePublish db [a] = publishOne (db, [], []) a := rfl
  refine ⟨?_, ?_, ?_, ?_⟩
  · rw [e]
    simpa using hp.1
  · rw [e]
    exact hp.2.1
  · refine ⟨{ a with
        id := db.nextId,
        createdAt := (if a.createdAt = 0 then db.clock else a.createdAt),
        updatedAt := (if a.createdAt = 0 then db.clock + 1 else db.clock),
        contentHash := computeContentHash a.content }, ?_, rfl⟩
    rw [e]
    unfold artifactGetByContentHash
    rw [hp.2.2, List.find?_append]
    unfold artifactGetByContentHash at hnew
    rw [hnew, List.find?_cons_of_pos _ (by simp)]
    rfl
  · intro db' b ex hbc hbh hex
    have hs := publishOne_skip db' b ex hbh (by rw [hbc]; exact hex) [] []
    have e2 : cachePublish db' [b] = publishOne (db', [], []) b := rfl
    exact ⟨by rw [e2]; exact hs.1, by rw [e2]; simpa using hs.2.1, by rw [e2]; exact hs.2.2⟩

/-! ## Claims C1 and C7: supporting lemmas on the step index -/

theorem latestStep_foldl_isSome :
    ∀ (l : List WorkflowStep) (b : WorkflowStep), (l.foldl latestStep (some b)).isSome = true := by
  intro l
  induction l with
  | nil => intro b; rfl
  | cons x t ih =>
    intro b
    rw [List.foldl_cons]
    show (t.foldl latestStep
      (if b.createdAt < x.createdAt then some x else some b)).isSome = true
    split
    · exact ih x
    · exact ih b

theorem findStep_none_filter (db : DB) (t h : String)
    (hf : findStepByInputHash db t h = none) :
    db.steps.filter (stepHashPred t h) = [] := by
  unfold findStepByInputHash at hf
  cases hl : db.steps.filter (stepHashPred t h) with
  | nil => rfl
  | cons x xs =>
    rw [hl, List.foldl_cons] at hf
    have hsome := latestStep_foldl_isSome xs x
    rw [show latestStep none x = some x from rfl] at hf
    rw [hf] at hsome
    exact absurd hsome (by simp)

theorem latestStep_foldl_mem :
    ∀ (l : List WorkflowStep) (acc : Option WorkflowStep) (s : WorkflowStep),
      l.foldl latestStep acc = some s → acc = some s ∨ s ∈ l := by
  intro l
  induction l with
  | nil => intro acc s hf; exact Or.inl hf
  | cons x t ih =>
    intro acc s hf
    rw [List.foldl_cons] at hf
    rcases ih _ s hf with h2 | h2
    · cases acc with
      | none =>
        have hx : x = s := by
          have := h2
          unfold latestStep at this
          simpa using this
        exact Or.inr (hx ▸ List.mem_cons_self x t)
      | some b =>
        have h2' : (if b.createdAt < x.createdAt then some x else some b) = some s := h2
        by_cases hc : b.createdAt < x.createdAt
        · rw [if_pos hc] at h2'
          exact Or.inr (by cases h2'; exact List.mem_cons_self x t)
        · rw [if_neg hc] at h2'
          exact Or.inl h2'
    · exact Or.inr (List.mem_cons_of_mem x h2)

theorem findStep_some_props (db : DB) (t h : String) (s : WorkflowStep)
    (hf : findStepByInputHash db t h = some s) :
    s ∈ db.steps ∧ s.stepType = t ∧ s.inputHash = h ∧ s.status = "completed" := by
  unfold findStepByInputHash at hf
  rcases latestStep_foldl_mem _ none s hf with h2 | h2
  · exact absurd h2 (by simp)
  · have hm := List.mem_filter.mp h2
    have hp := hm.2
    unfold stepHashPred at hp
    simp only [Bool.and_eq_true, beq_iff_eq] at hp
    exact ⟨hm.1, hp.1.1, hp.1.2, hp.2⟩

/-- The cache-hit path of `ExecuteStep`: no writes at all. -/
theorem executeStep_hit (embed : String → Option Vec) (db : DB) (req : StepRequest)
    (s : WorkflowStep)
    (hfind : findStepByInputHash db req.stepType (computeInputHash req.input) = some s) :
    executeStep embed db req = (.ok ⟨s, artifactGetByID db s.artifactID, true⟩, db) := by
  simp only [executeStep, hfind]

theorem map_eq_self_of {α : Type} (l : List α) (f : α → α) (h : ∀ x ∈ l, f x = x) :
    l.map f = l := by
  induction l with
  | nil => rfl
  | cons x t ih =>
    rw [List.map_cons, h x (by simp), ih (fun y hy => h y (by simp [hy]))]

theorem artifactStore_steps (db : DB) (a : Artifact) : (artifactStore db a).steps = db.steps := by
  unfold artifactStore
  split <;> rfl

theorem vectorStore_steps (db : DB) (id : UUID) (v : Vec) (pl : JObj) :
    (vectorStore db id v pl).steps = db.steps := by
  unfold vectorStore
  split <;> rfl

theorem artifactStore_nextId (db : DB) (a : Artifact) :
    (artifactStore db a).nextId = db.nextId := by
  unfold artifactStore
  split <;> rfl

theorem vectorStore_nextId (db : DB) (id : UUID) (v : Vec) (pl : JObj) :
    (vectorStore db id v pl).nextId = db.nextId := by
  unfold vectorStore
  split <;> rfl

theorem artifactStore_fresh_artifacts (db : DB) (a : Artifact)
    (h : db.artifacts.find? (fun r => r.id == a.id) = none) :
    (artifactStore db a).artifacts = db.artifacts ++ [a] := by
  unfold artifactStore
  rw [h]
  simp

theorem storeStep_fresh_steps (db : DB) (s : WorkflowStep)
    (h : db.steps.find? (fun r => r.id == s.id) = none) :
    (storeStep db s).steps = db.steps ++ [s] := by
  unfold storeStep
  rw [h]
  simp

theorem storeStep_artifacts (db : DB) (s : WorkflowStep) :
    (storeStep db s).artifacts = db.artifacts := by
  unfold storeStep
  split <;> rfl

theorem storeStep_nextId (db : DB) (s : WorkflowStep) :
    (storeStep db s).nextId = db.nextId := by
  unfold storeStep
  split <;> rfl

theorem updateStep_steps (db : DB) (s : WorkflowStep) :
    (updateStep db s).steps = db.steps.map (fun r =>
      if r.id == s.id then
        { r with artifactID := s.artifactID, outputHash := s.outputHash,
                 metadata := s.metadata, completedAt := s.completedAt, status := s.status }
      else r) := rfl

theorem updateStep_artifacts (db : DB) (s : WorkflowStep) :
    (updateStep db s).artifacts = db.artifacts := rfl

theorem updateStep_nextId (db : DB) (s : WorkflowStep) :
    (updateStep db s).nextId = db.nextId := rfl

theorem storeSession_steps (db : DB) (s : WorkflowSession) :
    (storeSession db s).steps = db.steps := by
  unfold storeSession
  split <;> rfl

theorem storeSession_artifacts (db : DB) (s : WorkflowSession) :
    (storeSession db s).artifacts = db.artifacts := by
  unfold storeSession
  split <;> rfl

theorem storeSession_nextId (db : DB) (s : WorkflowSession) :
    (storeSession db s).nextId = db.nextId := by
  unfold storeSession
  split <;> rfl

theorem updateSession_frame (db : DB) (s : WorkflowSession) :
    (updateSession db s).steps = db.steps ∧ (updateSession db s).artifacts = db.artifacts ∧
      (updateSession db s).nextId = db.nextId :=
  ⟨rfl, rfl, rfl⟩

theorem lookupStep_state (e : String → Option Vec) (db : DB) (r : WorkflowLookupRequest) :
    (lookupStep e db r).2 = db := by
  unfold lookupStep
  cases e (gofmtV r.input) <;> rfl

theorem storeStep_clock (db : DB) (s : WorkflowStep) : (storeStep db s).clock = db.clock := by
  unfold storeStep
  split <;> rfl

theorem artifactStore_clock (db : DB) (a : Artifact) :
    (artifactStore db a).clock = db.clock := by
  unfold artifactStore
  split <;> rfl

theorem vectorStore_clock (db : DB) (id : UUID) (v : Vec) (pl : JObj) :
    (vectorStore db id v pl).clock = db.clock := by
  unfold vectorStore
  split <;> rfl

/-- The cache-miss, successful-execution path of `ExecuteStep`: the
response carries the freshly completed step and its artifact with
`cached = false`, and the state gains exactly that step row and that
artifact row (ids assigned from the counter). -/
theorem executeStep_miss_spec (embed : String → Option Vec) (db : DB) (req : StepRequest)
    (v : Vec) (hwf : WF db)
    (hmiss : findStepByInputHash db req.stepType (computeInputHash req.input) = none)
    (hemb : embed (simulatedContentString req.stepType req.input) = some v) :
    (executeStep embed db req).1 = .ok ⟨missStep db req, some (missArtifact db req v), false⟩ ∧
    (executeStep embed db req).2.steps = db.steps ++ [missStep db req] ∧
    (executeStep embed db req).2.artifacts = db.artifacts ++ [missArtifact db req v] ∧
    (executeStep embed db req).2.nextId = db.nextId + 2 := by
  obtain ⟨hst, hstn, hart, hartn⟩ := hwf
  have hid1 : db.steps.find? (fun r => r.id == db.nextId) = none :=
    List.find?_eq_none.mpr (fun r hr => by
      simp only [beq_iff_eq]
      exact Nat.ne_of_lt (hst r hr))
  have hid2 : db.artifacts.find? (fun r => r.id == db.nextId + 1) = none :=
    List.find?_eq_none.mpr (fun r hr => by
      simp only [beq_iff_eq]
      exact Nat.ne_of_lt (Nat.lt_succ_of_lt (hart r hr)))
  refine ⟨?_, ?_, ?_, ?_⟩ <;>
    by_cases hv : v.isEmpty <;>
    simp [executeStep, hmiss, hemb, hv, hid1, hid2, missStep, missArtifact,
      simulatedContent, storeStep_clock, storeStep_nextId, storeStep_fresh_steps,
      storeStep_artifacts, artifactStore_steps, artifactStore_clock, artifactStore_nextId,
      artifactStore_fresh_artifacts, vectorStore_steps, vectorStore_clock, vectorStore_nextId,
      vectorStore_artifacts, updateStep_steps, updateStep_artifacts, updateStep_nextId] <;>
    first
      | omega
      | exact map_eq_self_of _ _ (fun r hr => by
          rw [if_neg (Nat.ne_of_lt (hst r hr))])

/-- The cache-miss, embedding-failure path of `ExecuteStep`: the call
errors, the state gains exactly one `failed` step row, and no artifact
is stored. -/
theorem executeStep_fail_spec (embed : String → Option Vec) (db : DB) (req : StepRequest)
    (hwf : WF db)
    (hmiss : findStepByInputHash db req.stepType (computeInputHash req.input) = none)
    (hemb : embed (simulatedContentString req.stepType req.input) = none) :
    (executeStep embed db req).1 = .error "failed to execute step" ∧
    (executeStep embed db req).2.steps = db.steps ++ [failStep db req] ∧
    (executeStep embed db req).2.artifacts = db.artifacts ∧
    (executeStep embed db req).2.nextId = db.nextId + 1 := by
  obtain ⟨hst, hstn, hart, hartn⟩ := hwf
  have hid1 : db.steps.find? (fun r => r.id == db.nextId) = none :=
    List.find?_eq_none.mpr (fun r hr => by
      simp only [beq_iff_eq]
      exact Nat.ne_of_lt (hst r hr))
  refine ⟨?_, ?_, ?_, ?_⟩ <;>
    simp [executeStep, hmiss, hemb, hid1, failStep, storeStep_fresh_steps, storeStep_artifacts,
      storeStep_nextId, storeStep_clock, updateStep_steps, updateStep_artifacts,
      updateStep_nextId] <;>
    first
      | rfl
      | exact map_eq_self_of _ _ (fun r hr => by
          rw [if_neg (Nat.ne_of_lt (hst r hr))])

/-- After a successful miss call, the fresh completed step is what the
step index finds for the same (step type, input hash). -/
theorem findStep_after_miss (embed : String → Option Vec) (db : DB) (req : StepRequest)
    (v : Vec) (hwf : WF db)
    (hmiss : findStepByInputHash db req.stepType (computeInputHash req.input) = none)
    (hemb : embed (simulatedContentString req.stepType req.input) = some v) :
    findStepByInputHash (executeStep embed db req).2 req.stepType
      (computeInputHash req.input) = some (missStep db req) := by
  obtain ⟨_, h2, _, _⟩ := executeStep_miss_spec embed db req v hwf hmiss hemb
  have hp : stepHashPred req.stepType (computeInputHash req.input) (missStep db req) = true := by
    unfold stepHashPred missStep
    simp
  unfold findStepByInputHash
  rw [h2, List.filter_append, findStep_none_filter db _ _ hmiss]
  simp only [List.nil_append, List.filter_cons, hp, if_true, List.filter_nil]
  rfl

/-- After a successful miss call, the fresh artifact is what the store
finds under the fresh step's artifact id. -/
theorem artifact_after_miss (embed : String → Option Vec) (db : DB) (req : StepRequest)
    (v : Vec) (hwf : WF db)
    (hmiss : findStepByInputHash db req.stepType (computeInputHash req.input) = none)
    (hemb : embed (simulatedContentString req.stepType req.input) = some v) :
    artifactGetByID (executeStep embed db req).2 (missStep db req).artifactID =
      some (missArtifact db req v) := by
  obtain ⟨_, _, h3, _⟩ := executeStep_miss_spec embed db req v hwf hmiss hemb
  have hfa : db.artifacts.find? (fun r => r.id == db.nextId + 1) = none :=
    List.find?_eq_none.mpr (fun r hr => by
      simp only [beq_iff_eq]
      exact Nat.ne_of_lt (Nat.lt_succ_of_lt (hwf.2.2.1 r hr)))
  show (executeStep embed db req).2.artifacts.find? (fun r => r.id == db.nextId + 1) =
    some (missArtifact db req v)
  rw [h3, List.find?_append, hfa, List.find?_cons_of_pos _ (by simp [missArtifact])]
  rfl

/-- C1: `ExecuteStep` is memoized by (step_type, input_hash). If the step
index already holds a completed step for the request's type and input
hash, the call returns it with `cached = true`, the linked artifact
looked up by its id, and an unchanged state (so no new step row). And
from a state with no such step, calling `ExecuteStep` twice in sequence
with the same request (the embedding engine succeeding) returns
`cached = false` then `cached = true`, with the same step and the same
artifact (in particular equal `artifact.id`), the first call having
appended exactly one step row. -/
theorem c1_executeStep_memoized (embed : String → Option Vec) (db : DB) (req : StepRequest)
    (v : Vec) (hwf : WF db)
    (hemb : embed (simulatedContentString req.stepType req.input) = some v) :
    (∀ s : WorkflowStep,
      findStepByInputHash db req.stepType (computeInputHash req.input) = some s →
      executeStep embed db req = (.ok ⟨s, artifactGetByID db s.artifactID, true⟩, db)) ∧
    (findStepByInputHash db req.stepType (computeInputHash req.input) = none →
      ∃ resp1 resp2 : StepResponse,
        (executeStep embed db req).1 = .ok resp1 ∧
        executeStep embed (executeStep embed db req).2 req =
          (.ok resp2, (executeStep embed db req).2) ∧
        resp1.cached = false ∧ resp2.cached = true ∧
        resp2.step = resp1.step ∧ resp2.artifact = resp1.artifact ∧
        (∃ a1 a2 : Artifact, resp1.artifact = some a1 ∧ resp2.artifact = some a2 ∧
          a2.id = a1.id) ∧
        (executeStep embed db req).2.steps = db.steps ++ [resp1.step]) := by
  constructor
  · intro s hs
    exact executeStep_hit embed db req s hs
  · intro hmiss
    obtain ⟨h1, h2, _, _⟩ := executeStep_miss_spec embed db req v hwf hmiss hemb
    refine ⟨⟨missStep db req, some (missArtifact db req v), false⟩,
            ⟨missStep db req, some (missArtifact db req v), true⟩,
            h1, ?_, rfl, rfl, rfl, rfl,
            ⟨missArtifact db req v, missArtifact db req v, rfl, rfl, rfl⟩, h2⟩
    have hfind2 := findStep_after_miss embed db req v hwf hmiss hemb
    have hart2 := artifact_after_miss embed db req v hwf hmiss hemb
    rw [executeStep_hit embed _ req _ hfind2, hart2]

theorem c1_witness :
    WF emptyDB ∧
    (∃ resp1 resp2 : StepResponse,
      (executeStep exEmbed emptyDB c1Req).1 = .ok resp1 ∧
      executeStep exEmbed (executeStep exEmbed emptyDB c1Req).2 c1Req =
        (.ok resp2, (executeStep exEmbed emptyDB c1Req).2) ∧
      resp1.cached = false ∧ resp2.cached = true ∧
      resp2.step = resp1.step ∧ resp2.artifact = resp1.artifact ∧
      (∃ a1 a2 : Artifact, resp1.artifact = some a1 ∧ resp2.artifact = some a2 ∧
        a2.id = a1.id) ∧
      (executeStep exEmbed emptyDB c1Req).2.steps = emptyDB.steps ++ [resp1.step]) :=
  ⟨by decide,
   (c1_executeStep_memoized exEmbed emptyDB c1Req [1] (by decide) rfl).2 rfl⟩

theorem nodup_map_append_fresh {α : Type} (f : α → Nat) (l : List α) (x : α) (n : Nat)
    (hn : (l.map f).Nodup) (hb : ∀ a ∈ l, f a < n) (hx : n ≤ f x) :
    ((l ++ [x]).map f).Nodup := by
  rw [List.map_append, List.nodup_append]
  refine ⟨hn, List.nodup_singleton _, ?_⟩
  intro y hy hy2
  rw [List.map_singleton, List.mem_singleton] at hy2
  obtain ⟨a, ham, haf⟩ := List.mem_map.mp hy
  have h1 : y < n := haf ▸ hb a ham
  omega

/-- Every single Workflow Service operation preserves well-formedness
and only appends step rows: no existing step row is modified or
removed. -/
theorem applyOp_frame (db : DB) (op : Op) (hwf : WF db) :
    ∃ ns, (applyOp db op).steps = db.steps ++ ns ∧ WF (applyOp db op) := by
  obtain ⟨hst, hstn, hart, hartn⟩ := hwf
  cases op with
  | createSession g c =>
    show ∃ ns, (createSession db g c).2.steps = db.steps ++ ns ∧ WF (createSession db g c).2
    have hs : (createSession db g c).2.steps = db.steps := by
      simp [createSession, storeSession_steps]
    have ha : (createSession db g c).2.artifacts = db.artifacts := by
      simp [createSession, storeSession_artifacts]
    have hn : (createSession db g c).2.nextId = db.nextId + 1 := by
      simp [createSession, storeSession_nextId]
    refine ⟨[], by rw [hs, List.append_nil], ?_⟩
    unfold WF
    rw [hs, ha, hn]
    exact ⟨fun s hsm => Nat.lt_succ_of_lt (hst s hsm), hstn,
           fun a ham => Nat.lt_succ_of_lt (hart a ham), hartn⟩
  | executeStep e r =>
    show ∃ ns, (executeStep e db r).2.steps = db.steps ++ ns ∧ WF (executeStep e db r).2
    cases hfind : findStepByInputHash db r.stepType (computeInputHash r.input) with
    | some s =>
      have he : (executeStep e db r).2 = db := by
        rw [executeStep_hit e db r s hfind]
      exact ⟨[], by rw [he, List.append_nil], by rw [he]; exact ⟨hst, hstn, hart, hartn⟩⟩
    | none =>
      cases hemb : e (simulatedContentString r.stepType r.input) with
      | some v =>
        obtain ⟨_, h2, h3, h4⟩ :=
          executeStep_miss_spec e db r v ⟨hst, hstn, hart, hartn⟩ hfind hemb
        refine ⟨[missStep db r], h2, ?_⟩
        unfold WF
        rw [h2, h3, h4]
        refine ⟨?_, ?_, ?_, ?_⟩
        · intro s hsm
          rcases List.mem_append.mp hsm with hm | hm
          · exact Nat.lt_of_lt_of_le (hst s hm) (Nat.le_add_right _ 2)
          · rw [List.mem_singleton.mp hm]
            exact Nat.lt_succ_of_lt (Nat.lt_succ_self _)
        · exact nodup_map_append_fresh _ _ _ db.nextId hstn hst (Nat.le_refl _)
        · intro a ham
          rcases List.mem_append.mp ham with hm | hm
          · exact Nat.lt_of_lt_of_le (hart a hm) (Nat.le_add_right _ 2)
          · rw [List.mem_singleton.mp hm]
            exact Nat.lt_succ_self _
        · exact nodup_map_append_fresh _ _ _ db.nextId hartn hart (Nat.le_succ _)
      | none =>
        obtain ⟨_, h2, h3, h4⟩ :=
          executeStep_fail_spec e db r ⟨hst, hstn, hart, hartn⟩ hfind hemb
        refine ⟨[failStep db r], h2, ?_⟩
        unfold WF
        rw [h2, h3, h4]
        refine ⟨?_, ?_, ?_, ?_⟩
        · intro s hsm
          rcases List.mem_append.mp hsm with hm | hm
          · exact Nat.lt_succ_of_lt (hst s hm)
          · rw [List.mem_singleton.mp hm]
            exact Nat.lt_succ_self _
        · exact nodup_map_append_fresh _ _ _ db.nextId hstn hst (Nat.le_refl _)
        · exact fun a ham => Nat.lt_succ_of_lt (hart a ham)
        · exact hartn
  | lookupStep e r =>
    show ∃ ns, (lookupStep e db r).2.steps = db.steps ++ ns ∧ WF (lookupStep e db r).2
    rw [lookupStep_state]
    exact ⟨[], (List.append_nil _).symm, ⟨hst, hstn, hart, hartn⟩⟩
  | completeSession i =>
    show ∃ ns, (completeSession db i).2.steps = db.steps ++ ns ∧ WF (completeSession db i).2
    unfold completeSession
    cases getSession db i with
    | none => exact ⟨[], (List.append_nil _).symm, ⟨hst, hstn, hart, hartn⟩⟩
    | some s =>
      refine ⟨[], ?_, ?_⟩
      · rw [(updateSession_frame _ _).1, List.append_nil]
      · unfold WF
        rw [(updateSession_frame _ _).1, (updateSession_frame _ _).2.1,
            (updateSession_frame _ _).2.2]
        exact ⟨hst, hstn, hart, hartn⟩
  | failSession i reason =>
    show ∃ ns, (failSession db i reason).2.steps = db.steps ++ ns ∧
      WF (failSession db i reason).2
    unfold failSession
    cases getSession db i with
    | none => exact ⟨[], (List.append_nil _).symm, ⟨hst, hstn, hart, hartn⟩⟩
    | some s =>
      refine ⟨[], ?_, ?_⟩
      · rw [(updateSession_frame _ _).1, List.append_nil]
      · unfold WF
        rw [(updateSession_frame _ _).1, (updateSession_frame _ _).2.1,
            (updateSession_frame _ _).2.2]
        exact ⟨hst, hstn, hart, hartn⟩

/-- Sequences of operations preserve well-formedness and only append
step rows. -/
theorem applyOps_frame (db : DB) (ops : List Op) (hwf : WF db) :
    ∃ ns, (applyOps db ops).steps = db.steps ++ ns ∧ WF (applyOps db ops) := by
  induction ops generalizing db with
  | nil => exact ⟨[], (List.append_nil _).symm, hwf⟩
  | cons op t ih =>
    obtain ⟨ns1, h1, hwf1⟩ := applyOp_frame db op hwf
    obtain ⟨ns2, h2, hwf2⟩ := ih (applyOp db op) hwf1
    refine ⟨ns1 ++ ns2, ?_, hwf2⟩
    rw [show applyOps db (op :: t) = applyOps (applyOp db op) t from rfl, h2, h1,
        List.append_assoc]

/-- C7: step status is monotone at terminal states. In a well-formed
state, a step row whose status is `completed` or `failed` survives every
sequence of Workflow Service operations (`CreateSession`, `ExecuteStep`,
`LookupStep`, `CompleteSession`, `FailSession`) unchanged, and any step
row with its id in the resulting state still carries the same status:
no operation re-opens a terminal step. -/
theorem c7_step_status_monotonic (db : DB) (ops : List Op) (s : WorkflowStep)
    (hwf : WF db) (hs : s ∈ db.steps)
    (_hterm : s.status = "completed" ∨ s.status = "failed") :
    s ∈ (applyOps db ops).steps ∧
    ∀ s' ∈ (applyOps db ops).steps, s'.id = s.id → s'.status = s.status := by
  obtain ⟨ns, he, hwf'⟩ := applyOps_frame db ops hwf
  have hmem : s ∈ (applyOps db ops).steps := he ▸ List.mem_append_left ns hs
  refine ⟨hmem, fun s' hs' hid => ?_⟩
  have heq : s' = s := List.inj_on_of_nodup_map hwf'.2.1 hs' hmem hid
  rw [heq]

theorem c7_witness :
    WF c9DB ∧ c9Step ∈ c9DB.steps ∧
    (c9Step.status = "completed" ∨ c9Step.status = "failed") ∧
    (c9Step ∈ (applyOps c9DB [.createSession "g" .nil, .executeStep exEmbed c1Req,
        .completeSession 0]).steps ∧
     ∀ s' ∈ (applyOps c9DB [.createSession "g" .nil, .executeStep exEmbed c1Req,
        .completeSession 0]).steps, s'.id = c9Step.id → s'.status = c9Step.status) :=
  ⟨by decide, List.mem_singleton.mpr rfl, Or.inl rfl,
   c7_step_status_monotonic c9DB
     [.createSession "g" .nil, .executeStep exEmbed c1Req, .completeSession 0]
     c9Step (by decide) (List.mem_singleton.mpr rfl) (Or.inl rfl)⟩

theorem c2_witness :
    (cachePublish emptyDB [c2Art]).2.1 = [1] ∧
    (cachePublish (cachePublish emptyDB [c2Art]).1 [c2Art]).2.1 = [] ∧
    (cachePublish (cachePublish emptyDB [c2Art]).1 [c2Art]).2.2 = [1] ∧
    (cachePublish (cachePublish emptyDB [c2Art]).1 [c2Art]).1.artifacts =
      (cachePublish emptyDB [c2Art]).1.artifacts := by
  obtain ⟨h1, _, ⟨r, hr, hrid⟩, hskip⟩ :=
    c2_publish_idempotent emptyDB c2Art rfl rfl (by decide) rfl
  obtain ⟨h4, h5, h6⟩ := hskip (cachePublish emptyDB [c2Art]).1 c2Art r rfl rfl hr
  exact ⟨h1, h4, by rw [h5, hrid]; rfl, h6⟩

end Mentis
